import Mathlib

/-!
# Verification of the breez-lnurl webhook bridge server

A shallow embedding of the Go sources of `breez/breez-lnurl` into Lean 4,
together with theorems settling a list of claims about the server.

Conventions:
* Go strings are modelled as Lean `String` (for header / URL manipulation) or
  as `List Nat` of byte values (for the bech32 layer, where Go operates on
  `[]byte`).
* Go `int64` is modelled as `Int`, `uint64` as `Nat` (with explicit range
  conditions where overflow matters).
* Fallible Go functions returning `(T, error)` are modelled with `Option` /
  `Except String`.
* External collaborators that are not part of this repository (the secp256k1
  signed-message recovery, the ttlcache library, the go-nostr tag helpers,
  the btcutil bech32 primitives) are either abstracted as parameters or
  modelled from their library sources / documented contracts; each such
  definition carries a doc comment saying so.
-/
/-! ## Go standard-library helpers (strconv, strings) -/
/-- Byte classifier of Go `unicode.IsSpace` restricted to the Latin-1 range,
as used by `strings.TrimSpace`. -/
def goIsSpace (c : Char) : Bool :=
  c = ' ' || c = '\t' || c = '\n' || c = '\r' ||
    c.toNat = 11 || c.toNat = 12 || c.toNat = 0x85 || c.toNat = 0xA0

/-- Go `strings.TrimSpace`: drop whitespace from both ends. -/
def goTrimSpace (s : String) : String :=
  ⟨((s.data.dropWhile goIsSpace).reverse.dropWhile goIsSpace).reverse⟩

/-- Value of a nonempty all-digit decimal string; `none` otherwise. -/
def digitsVal (cs : List Char) : Option Nat :=
  if cs ≠ [] ∧ cs.all Char.isDigit then
    some (cs.foldl (fun a c => a * 10 + (c.toNat - 48)) 0)
  else none

/-- Go `strconv.ParseUint(s, 10, 64)`: no sign prefix permitted, decimal
digits only, value below `2^64` (out-of-range input is an error, which every
caller in this repository treats the same as a parse failure). -/
def goParseUint64 (s : String) : Option Nat :=
  match digitsVal s.data with
  | none => none
  | some n => if n < 2 ^ 64 then some n else none

/-- Go `strconv.ParseInt(s, 10, 64)`: optional single `+`/`-` sign, decimal
digits, value within the signed 64-bit range. -/
def goParseInt64 (s : String) : Option Int :=
  let signed : Bool × List Char :=
    match s.data with
    | '-' :: rest => (true, rest)
    | '+' :: rest => (false, rest)
    | cs => (false, cs)
  match digitsVal signed.2 with
  | none => none
  | some n =>
    let v : Int := if signed.1 then -(n : Int) else (n : Int)
    if -(2 ^ 63 : Int) ≤ v ∧ v ≤ 2 ^ 63 - 1 then some v else none

/-! ## The callback channel (`channel/http_callback_channel.go`)

The correlation engine.  `pendingRequests` is a mutex-protected map
`reqID ↦ *PendingRequest`; each pending request owns a buffered channel of
capacity one.  The mutex serialises every access, so the semantics is a
sequence of atomic actions on the state below.  Channels are kept in an
association list keyed by `reqID` so that a channel object survives its
removal from the map (the sender still holds a reference to it); updates
touch only the first (most recently created) entry for an id, matching Go
pointer semantics. -/
/-- `CallbackResponse`: body bytes plus the optional parsed
`Cache-Control: max-age` value. -/
structure CallbackResponse where
  body : List Nat
  maxAge : Option Int
deriving DecidableEq, Repr

/-- The observable state of one Go channel: the messages sent into it and
how many times `close` was invoked on it. -/
structure ChannelState where
  buffer : List CallbackResponse
  closeCount : Nat
deriving DecidableEq, Repr

/-- State of one `HttpCallbackChannel`: the ids currently present in the
`pendingRequests` map, and every channel ever created, newest first. -/
structure ChanSt where
  pendingIds : List Nat
  chans : List (Nat × ChannelState)
deriving DecidableEq, Repr

/-- Update the first channel entry with the given id (Go map entries are
unique; a fresh entry for a reused id shadows, never mutates, older ones). -/
def updateChan : List (Nat × ChannelState) → Nat → (ChannelState → ChannelState) →
    List (Nat × ChannelState)
  | [], _, _ => []
  | p :: rest, id, f =>
    if p.1 = id then (p.1, f p.2) :: rest else p :: updateChan rest id f

/-- The channel of a given request id (first entry wins). -/
def chanOf (st : ChanSt) (id : Nat) : ChannelState :=
  match st.chans.find? (fun p => p.1 = id) with
  | some p => p.2
  | none => ⟨[], 0⟩

/-- `SendRequest` registering a fresh pending request with a fresh
capacity-one channel under the lock. -/
def insertPending (st : ChanSt) (id : Nat) : ChanSt :=
  { pendingIds := id :: st.pendingIds
    chans := (id, ⟨[], 0⟩) :: st.chans }

/-- `deleteRequestAndClose`: remove the id from the map and close the
channel. -/
def deleteRequestAndClose (st : ChanSt) (id : Nat) : ChanSt :=
  { pendingIds := st.pendingIds.filter (fun j => j ≠ id)
    chans := updateChan st.chans id (fun c => { c with closeCount := c.closeCount + 1 }) }

/-- `OnResponse`: under the lock, look the id up; if absent fail with
`unknown request id`; otherwise deliver the response into the buffered
channel, then remove the map entry and close the channel. -/
def onResponse (st : ChanSt) (id : Nat) (resp : CallbackResponse) :
    Except String Unit × ChanSt :=
  if id ∈ st.pendingIds then
    let st' := { st with
      chans := updateChan st.chans id (fun c => { c with buffer := c.buffer ++ [resp] }) }
    (Except.ok (), deleteRequestAndClose st' id)
  else (Except.error "unknown request id", st)

/-- The sender's deferred cleanup: delete-and-close only if the entry was not
deleted before. -/
def senderCleanup (st : ChanSt) (id : Nat) : ChanSt :=
  if id ∈ st.pendingIds then deleteRequestAndClose st id else st

/-- First comma-separated directive of a `Cache-Control` value whose trimmed
form starts with `max-age=`; the loop body of `getCacheControlMaxAge`. -/
def maxAgeLoop : List String → Option Int
  | [] => none
  | d :: rest =>
    let d := goTrimSpace d
    if d.startsWith "max-age=" then goParseInt64 (d.drop 8)
    else maxAgeLoop rest

/-- `getCacheControlMaxAge`: the `Cache-Control` header value (empty string
when the header is absent, per `http.Header.Get`) is split on commas; the
first trimmed directive starting with `max-age=` is parsed as a signed
64-bit integer; any failure yields `none`. -/
def getCacheControlMaxAge (cacheControl : String) : Option Int :=
  if cacheControl = "" then none
  else maxAgeLoop (cacheControl.splitOn ",")

/-- An HTTP response as observed by the client: status code and plain body
(`http.Error` writes the message with the status). -/
structure HttpResponse where
  status : Nat
  body : String
deriving DecidableEq, Repr

/-- `HandleResponse` (`POST /response/{responseID}`): parse the path
parameter as a decimal `uint64` (else `400 invalid response`), read the body
(read errors are out of scope of this model: the body is given), build a
`CallbackResponse` with the parsed `Cache-Control: max-age`, and dispatch to
`OnResponse`; its failure surfaces as `500` with the error message,
success as `200 OK`. -/
def handleResponse (st : ChanSt) (responseID : String) (body : List Nat)
    (cacheControl : String) : HttpResponse × ChanSt :=
  match goParseUint64 responseID with
  | none => (⟨400, "invalid response"⟩, st)
  | some reqID =>
    let resp : CallbackResponse := ⟨body, getCacheControlMaxAge cacheControl⟩
    match onResponse st reqID resp with
    | (Except.error e, st') => (⟨500, e⟩, st')
    | (Except.ok _, st') => (⟨200, ""⟩, st')

/-! ## The `SendRequest` exit protocol

`SendRequest` (after marshalling) inserts a pending entry, POSTs to the
wallet webhook and then either fails early (request construction error,
transport error, non-200 status) or waits on the select over
`{reply-channel, ctx.Done, 30s timer}`.  On every return path the deferred
cleanup runs; a concurrent `OnResponse` for the same id may win or lose the
lock race against it.  The mutex serialises the two, so every execution is
one of three action orders, captured by `CallbackTiming`.  (The receive of
the buffered message by the sender is not modelled: it does not affect the
map or the close count.) -/
/-- Outcome of the phase of `SendRequest` up to and including the webhook
POST. -/
inductive RequestPhase
  | marshalErr | newRequestErr | transportErr | non200 | ok200
deriving DecidableEq, Repr

/-- Which arm of the three-way select fires for a request that reached the
waiting phase. -/
inductive ExitReason
  | gotReply | ctxCanceled | timedOut
deriving DecidableEq, Repr

/-- Lock-acquisition order of a concurrent `OnResponse` for this id relative
to the sender's deferred cleanup. -/
inductive CallbackTiming
  | noCallback | callbackBeforeExit | callbackAfterExit
deriving DecidableEq, Repr

/-- The state evolution after the pending entry exists: the sender's
deferred cleanup runs exactly once, a callback delivery at most once, in
either order. -/
def runPendingPhase (st : ChanSt) (id : Nat) (resp : CallbackResponse) :
    CallbackTiming → ChanSt
  | CallbackTiming.noCallback => senderCleanup st id
  | CallbackTiming.callbackBeforeExit => senderCleanup (onResponse st id resp).2 id
  | CallbackTiming.callbackAfterExit => (onResponse (senderCleanup st id) id resp).2

/-- One complete execution of `SendRequest`: the returned value and the
final channel state.  `resp` is the response a concurrent `HandleResponse`
would deliver. -/
def sendRequestExec (st : ChanSt) (id : Nat) (phase : RequestPhase)
    (timing : CallbackTiming) (pick : ExitReason) (resp : CallbackResponse) :
    Except String CallbackResponse × ChanSt :=
  match phase with
  | RequestPhase.marshalErr => (Except.error "json marshal error", st)
  | RequestPhase.newRequestErr =>
    (Except.error "new request error", runPendingPhase (insertPending st id) id resp timing)
  | RequestPhase.transportErr =>
    (Except.error "transport error", runPendingPhase (insertPending st id) id resp timing)
  | RequestPhase.non200 =>
    (Except.error "webhook proxy returned non-200 status code",
      runPendingPhase (insertPending st id) id resp timing)
  | RequestPhase.ok200 =>
    let result : Except String CallbackResponse :=
      match pick with
      | ExitReason.gotReply => Except.ok resp
      | ExitReason.ctxCanceled => Except.error "canceled"
      | ExitReason.timedOut => Except.error "timeout"
    (result, runPendingPhase (insertPending st id) id resp timing)

/-! ## Registration store (`persist/store.go`, in-memory implementation) -/
/-- A stored LNURL registration row. -/
structure Webhook where
  pubkey : String
  url : String
  username : Option String
  offer : Option String
deriving DecidableEq, Repr

/-- The `(pubkey → username, offer)` projection row. -/
structure PubkeyDetails where
  pubkey : String
  username : String
  offer : Option String
deriving DecidableEq, Repr

/-- `Webhook.Compare`: the identifier matches the pubkey, or the username
when one is bound. -/
def whCompare (w : Webhook) (identifier : String) : Bool :=
  w.pubkey = identifier || w.username = some identifier

/-- `MemoryStore.Set`: drop any row with the same `(pubkey, url)` pair and
prepend the new row. -/
def msSet (s : List Webhook) (w : Webhook) : List Webhook :=
  w :: s.filter (fun h => ¬(h.pubkey = w.pubkey ∧ h.url = w.url))

/-- `MemoryStore.SetPubkeyDetails`: remove every row of the pubkey, take the
last removed row as the base (the zero `Webhook` when none), overwrite its
pubkey, username and offer, prepend the result; returns the updated
projection. -/
def msSetPubkeyDetails (s : List Webhook) (pk un : String) (offer : Option String) :
    List Webhook × PubkeyDetails :=
  let base := ((s.filter (fun h => h.pubkey = pk)).getLast?).getD ⟨"", "", none, none⟩
  ({ base with pubkey := pk, username := some un, offer := offer } ::
      s.filter (fun h => ¬ h.pubkey = pk),
    ⟨pk, un, offer⟩)

/-- `MemoryStore.GetLastUpdated`: first row matching the identifier. -/
def msGetLastUpdated (s : List Webhook) (identifier : String) : Option Webhook :=
  s.find? (fun h => whCompare h identifier)

/-- `MemoryStore.GetPubkeyDetails`: first row matching the identifier that
has a username bound. -/
def msGetPubkeyDetails (s : List Webhook) (identifier : String) : Option PubkeyDetails :=
  match s.find? (fun h => whCompare h identifier && h.username.isSome) with
  | some h => some ⟨h.pubkey, h.username.getD "", h.offer⟩
  | none => none

/-- `MemoryStore.Remove`: drop the `(pubkey, url)` pair. -/
def msRemove (s : List Webhook) (pk url : String) : List Webhook :=
  s.filter (fun h => ¬(h.pubkey = pk ∧ h.url = url))

/-! ## Request verification (`lnurl/pay.go`, bolt12 router)

`lightning.VerifyMessage` (zbase32 / double-SHA256 / secp256k1 recovery from
the external `lspd` library) is abstracted as an oracle from the canonical
message and the signature to the recovered hex pubkey, and the username
regular expression as a predicate; the claims below do not depend on
either. -/
/-- Signature recovery oracle: canonical message, signature ↦ recovered
compressed public key in hex (or `none` on recovery failure). -/
abbrev SigRecover := String → String → Option String

/-- Shared tail of every `Verify`: recover, then compare with the path
pubkey. -/
def verifySig (recover : SigRecover) (msg sig pubkey : String) : Except String Unit :=
  match recover msg sig with
  | none => Except.error "verify message error"
  | some pk => if pubkey = pk then Except.ok () else Except.error "invalid signature"

/-- `RegisterLnurlPayRequest` (LNURL register payload). -/
structure RegisterLnurlPayRequest where
  username : Option String
  time : Int
  webhookUrl : String
  signature : String
deriving DecidableEq, Repr

/-- `RegisterLnurlPayRequest.Verify`: optional username validation (length
bound 64 and the RFC-5322 regular expression, abstracted as
`usernameValid`), then signature verification over `"{time}-{webhook_url}"`
or `"{time}-{webhook_url}-{username}"`.  No check of `time` against the
clock is performed. -/
def registerLnurlVerify (recover : SigRecover) (usernameValid : String → Bool)
    (req : RegisterLnurlPayRequest) (pubkey : String) : Except String Unit :=
  let base := toString req.time ++ "-" ++ req.webhookUrl
  match req.username with
  | some username =>
    if username.length > 64 then Except.error "invalid username length"
    else if ¬ usernameValid username then Except.error "invalid username"
    else verifySig recover (base ++ "-" ++ username) req.signature pubkey
  | none => verifySig recover base req.signature pubkey

/-- `UnregisterRecoverLnurlPayRequest` (LNURL unregister / recover payload). -/
structure UnregisterRecoverLnurlPayRequest where
  time : Int
  webhookUrl : String
  signature : String
deriving DecidableEq, Repr

/-- `UnregisterRecoverLnurlPayRequest.Verify`: reject when the absolute
clock skew exceeds 30 seconds (`math.Abs` over the exact difference), then
verify the signature over `"{time}-{webhook_url}"`. -/
def unregisterRecoverLnurlVerify (recover : SigRecover) (now : Int)
    (req : UnregisterRecoverLnurlPayRequest) (pubkey : String) : Except String Unit :=
  if (now - req.time).natAbs > 30 then Except.error "invalid time"
  else verifySig recover (toString req.time ++ "-" ++ req.webhookUrl) req.signature pubkey

/-- `RegisterBolt12OfferRequest` (BOLT12 register payload). -/
structure RegisterBolt12OfferRequest where
  time : Int
  username : String
  offer : String
  signature : String
deriving DecidableEq, Repr

/-- `RegisterBolt12OfferRequest.Verify`: username validation, then signature
verification over `"{time}-{username}-{offer}"`.  No clock check. -/
def registerBolt12Verify (recover : SigRecover) (usernameValid : String → Bool)
    (req : RegisterBolt12OfferRequest) (pubkey : String) : Except String Unit :=
  if req.username.length > 64 then Except.error "invalid username length"
  else if ¬ usernameValid req.username then Except.error "invalid username"
  else verifySig recover
    (toString req.time ++ "-" ++ req.username ++ "-" ++ req.offer) req.signature pubkey

/-- `UnregisterRecoverBolt12OfferRequest` (BOLT12 unregister / recover
payload). -/
structure UnregisterRecoverBolt12OfferRequest where
  time : Int
  offer : String
  signature : String
deriving DecidableEq, Repr

/-- `UnregisterRecoverBolt12OfferRequest.Verify`: reject when the absolute
clock skew exceeds 30 seconds, then verify the signature over
`"{time}-{offer}"`. -/
def unregisterRecoverBolt12Verify (recover : SigRecover) (now : Int)
    (req : UnregisterRecoverBolt12OfferRequest) (pubkey : String) : Except String Unit :=
  if (now - req.time).natAbs > 30 then Except.error "invalid time"
  else verifySig recover (toString req.time ++ "-" ++ req.offer) req.signature pubkey

/-! ## Registration handlers -/
/-- Outcome of `persist.Store.Set` as observed by the register handler: the
stored row, a `*persist.ErrorUsernameConflict`, or another error. -/
inductive StoreSetResult
  | ok (w : Webhook)
  | usernameConflict (un : String)
  | otherErr (msg : String)
deriving DecidableEq, Repr

/-- `LnurlPayRouter.Register` after JSON decode and path extraction,
parameterised by the store outcome; response marshalling and lnurl encoding
are assumed successful (their failures give `500`).  The resulting HTTP
status: `401` on verification failure, `409` on a username conflict, `500`
on another store error, `200` otherwise. -/
def lnurlRegisterStatus (recover : SigRecover) (usernameValid : String → Bool)
    (req : RegisterLnurlPayRequest) (pubkey : String)
    (setResult : StoreSetResult) : Nat :=
  match registerLnurlVerify recover usernameValid req pubkey with
  | Except.error _ => 401
  | Except.ok _ =>
    match setResult with
    | StoreSetResult.usernameConflict _ => 409
    | StoreSetResult.otherErr _ => 500
    | StoreSetResult.ok _ => 200

/-- `LnurlPayRouter.Unregister` over the in-memory store: `401` on
verification failure (the handler always writes `invalid signature` with
`401`), otherwise remove the `(pubkey, url)` pair and answer `200`. -/
def lnurlUnregister (recover : SigRecover) (now : Int)
    (req : UnregisterRecoverLnurlPayRequest) (pubkey : String) (s : List Webhook) :
    Nat × List Webhook :=
  match unregisterRecoverLnurlVerify recover now req pubkey with
  | Except.error _ => (401, s)
  | Except.ok _ => (200, msRemove s pubkey req.webhookUrl)

/-- `LnurlPayRouter.Recover` over the in-memory store: `401` on
verification failure, `404` when no registration exists, `200` otherwise. -/
def lnurlRecoverStatus (recover : SigRecover) (now : Int)
    (req : UnregisterRecoverLnurlPayRequest) (pubkey : String)
    (s : List Webhook) : Nat :=
  match unregisterRecoverLnurlVerify recover now req pubkey with
  | Except.error _ => 401
  | Except.ok _ =>
    match msGetLastUpdated s pubkey with
    | none => 404
    | some _ => 200

/-- Result of `dns.DnsService.Set`: published TTL and error.  `NoDns.Set`
always returns `(0, nil)`; the real TSIG implementation returns
`(3600, nil)` on success and `(0, err)` on failure. -/
abbrev DnsSetFn := String → String → Nat × Option String

/-- Result of `dns.DnsService.Remove`. -/
abbrev DnsRemoveFn := String → Option String

/-- `NoDns.Set`: no DNS implementation, do nothing, TTL `0`. -/
def noDnsSet : DnsSetFn := fun _ _ => (0, none)

/-- `NoDns.Remove`: no DNS implementation, do nothing. -/
def noDnsRemove : DnsRemoveFn := fun _ => none

/-- `Bolt12OfferRouter.Register` over the in-memory store: verify (`401` on
failure), read the previous projection, upsert
`SetPubkeyDetails(pubkey, username, &offer)` (the in-memory store never
fails, so the `409`/`500` branches are unreachable here), then reconcile
DNS: when the `(username, offer)` pair changed (or none was recorded),
publish via `dns.Set` — its error is only logged — and re-record the
projection with the offer only when the returned TTL is nonzero.  The
`dns.Remove` of a replaced username only touches external DNS state, which
is not part of the store model. -/
def bolt12Register (recover : SigRecover) (usernameValid : String → Bool)
    (dnsSet : DnsSetFn) (req : RegisterBolt12OfferRequest)
    (pubkey : String) (s : List Webhook) : Nat × List Webhook :=
  match registerBolt12Verify recover usernameValid req pubkey with
  | Except.error _ => (401, s)
  | Except.ok _ =>
    let last := msGetPubkeyDetails s pubkey
    let res := msSetPubkeyDetails s pubkey req.username (some req.offer)
    match res.2.offer with
    | none => (200, res.1)
    | some offer =>
      let username := res.2.username
      let shouldSetOffer : Bool :=
        match last with
        | none => true
        | some lastD =>
          match lastD.offer with
          | none => true
          | some lastOffer => username != lastD.username || offer != lastOffer
      if shouldSetOffer then
        let ttl := (dnsSet username offer).1
        let maybeOffer := if ttl = 0 then none else some offer
        (200, (msSetPubkeyDetails res.1 pubkey username maybeOffer).1)
      else (200, res.1)

/-- `Bolt12OfferRouter.Unregister` over the in-memory store: `401` on
verification failure; `200` when no projection row exists; otherwise, when
an offer is recorded, remove the DNS record (logged only) and clear the
offer from the projection; `200`. -/
def bolt12Unregister (recover : SigRecover) (now : Int)
    (req : UnregisterRecoverBolt12OfferRequest) (pubkey : String)
    (s : List Webhook) : Nat × List Webhook :=
  match unregisterRecoverBolt12Verify recover now req pubkey with
  | Except.error _ => (401, s)
  | Except.ok _ =>
    match msGetPubkeyDetails s pubkey with
    | none => (200, s)
    | some pkUsername =>
      match pkUsername.offer with
      | none => (200, s)
      | some _ => (200, (msSetPubkeyDetails s pubkey pkUsername.username none).1)

/-- `Bolt12OfferRouter.Recover` over the in-memory store: `401` on
verification failure, `404` when no projection row exists, `200`
otherwise. -/
def bolt12RecoverStatus (recover : SigRecover) (now : Int)
    (req : UnregisterRecoverBolt12OfferRequest) (pubkey : String)
    (s : List Webhook) : Nat :=
  match unregisterRecoverBolt12Verify recover now req pubkey with
  | Except.error _ => 401
  | Except.ok _ =>
    match msGetPubkeyDetails s pubkey with
    | none => 404
    | some _ => 200

/-! ## Response caches (`persist/store.go` cache rows, `cache/cache.go`) -/
/-- A stored cache row: exact request URL, body bytes, absolute expiry
(unix seconds). -/
structure CacheEntry where
  url : String
  body : List Nat
  expiresAt : Int
deriving DecidableEq, Repr

/-- `MemoryStore.SetCache`: drop any row with the same URL and prepend the
new row. -/
def msSetCache (cs : List CacheEntry) (url : String) (body : List Nat)
    (expiresAt : Int) : List CacheEntry :=
  ⟨url, body, expiresAt⟩ :: cs.filter (fun c => ¬ c.url = url)

/-- `MemoryStore.GetCache`: first row with the URL whose expiry is strictly
in the future. -/
def msGetCache (cs : List CacheEntry) (url : String) (now : Int) :
    Option CacheEntry :=
  cs.find? (fun c => c.url = url && c.expiresAt > now)

/-- `MemoryStore.RemoveCache`: drop every row with the URL. -/
def msRemoveCache (cs : List CacheEntry) (url : String) : List CacheEntry :=
  cs.filter (fun c => ¬ c.url = url)

/-- An entry of the TTL cache with its absolute expiry. -/
structure TtlEntry where
  key : String
  value : List Nat
  expiresAt : Int
deriving DecidableEq, Repr

/-- Modelled from the jellydator/ttlcache v3 library contract (an external
dependency of `cache/cache.go`): `Set` stores under the key with absolute
expiry `now + ttl`, replacing any previous entry; touch-on-hit is disabled
by the repository's constructor options, so expiries never move. -/
def ttlSet (m : List TtlEntry) (k : String) (v : List Nat) (now ttl : Int) :
    List TtlEntry :=
  ⟨k, v, now + ttl⟩ :: m.filter (fun e => ¬ e.key = k)

/-- Modelled from the jellydator/ttlcache v3 library contract: lookup by
key. -/
def ttlGet (m : List TtlEntry) (k : String) : Option TtlEntry :=
  m.find? (fun e => e.key = k)

/-- Modelled from the jellydator/ttlcache v3 library contract:
`Item.IsExpired` holds once the expiry lies strictly before the current
time. -/
def ttlIsExpired (e : TtlEntry) (now : Int) : Bool :=
  e.expiresAt < now

/-- `Cache.Get` (`cache/cache.go`): `nil` when the item is absent or
expired, its value otherwise. -/
def cacheGet (m : List TtlEntry) (k : String) (now : Int) : Option (List Nat) :=
  match ttlGet m k with
  | none => none
  | some it => if ttlIsExpired it now then none else some it.value

/-- `Cache.Set` (`cache/cache.go`): delegate to the TTL cache. -/
def cacheSet (m : List TtlEntry) (k : String) (v : List Nat) (now ttl : Int) :
    List TtlEntry :=
  ttlSet m k v now ttl

/-- `Cache.Delete` (`cache/cache.go`): drop the key. -/
def cacheDelete (m : List TtlEntry) (k : String) : List TtlEntry :=
  m.filter (fun e => ¬ e.key = k)

/-! ## NWC store (`persist/nwc/memory.go`) and Nostr forwarder -/
/-- An NWC registration row. -/
structure NwcWebhook where
  userPubkey : String
  appPubkey : String
  url : String
  relays : List String
deriving DecidableEq, Repr

/-- Key comparison of the NWC `Webhook`.  The `Compare` method's definition
is not among the provided sources (only its callers are); modelled from the
spec: NWC registrations are keyed by the `(user_pubkey, app_pubkey)` pair,
so `Compare` holds exactly when both keys match. -/
def nwcCompare (h : NwcWebhook) (userPubkey appPubkey : String) : Bool :=
  h.userPubkey = userPubkey && h.appPubkey = appPubkey

/-- NWC `MemoryStore.Set` (`persist/nwc/memory.go`): if any row matches the
key pair, return `nil` immediately without updating; otherwise assign
`append([]Webhook{webhook}, webhook)` — a fresh slice holding the new row
twice, discarding every previous row. -/
def nwcSet (s : List NwcWebhook) (w : NwcWebhook) : List NwcWebhook :=
  if s.any (fun h => nwcCompare h w.userPubkey w.appPubkey) then s
  else [w, w]

/-- NWC `MemoryStore.Get`: first row matching the key pair. -/
def nwcGet (s : List NwcWebhook) (userPubkey appPubkey : String) :
    Option NwcWebhook :=
  s.find? (fun h => nwcCompare h userPubkey appPubkey)

/-- Go `strings.HasPrefix`, on the underlying characters. -/
def goStartsWith (s pre : String) : Bool :=
  pre.data.isPrefixOf s.data

/-- go-nostr `Tag.StartsWith` (external library, modelled from its source):
the pattern may not be longer than the tag, all but its last element must
match exactly, and the tag element at its last position must begin with the
last pattern element. -/
def tagStartsWith (tag pfx : List String) : Bool :=
  if pfx.length > tag.length then false
  else
    ((List.range (pfx.length - 1)).all fun i => pfx.getD i "" = tag.getD i "") &&
      goStartsWith (tag.getD (pfx.length - 1) "") (pfx.getD (pfx.length - 1) "")

/-- go-nostr `Tags.GetFirst` (external library, modelled from its source):
pointer to the first matching tag, `nil` (here `none`) when no tag
matches. -/
def tagsGetFirst (tags : List (List String)) (pfx : List String) :
    Option (List String) :=
  tags.find? (fun t => tagStartsWith t pfx)

/-- go-nostr `Tag.Value` (external library, modelled from its source): the
second element of the tag, or the empty string for a shorter tag.  Its
receiver is a value type, so calling it through a `nil` pointer dereferences
the pointer. -/
def tagValue (t : List String) : String :=
  t.getD 1 ""

/-- Possible outcomes of one `forwardToNotify` iteration. -/
inductive ForwardOutcome
  | dropBadSig
  | nilTagFault
  | dropNoUser
  | dropNoWebhook
  | forwarded (url : String)
deriving DecidableEq, Repr

/-- One iteration of `NostrManager.forwardToNotify` for an incoming event:
verify the signature (drop on failure), take
`incomingEvent.Tags.GetFirst([]string{"p"})` and call `.Value()` on the
result — when no tag matched, `GetFirst` returned a `nil` pointer and the
`Value` call dereferences it, a runtime fault (`nilTagFault`); with an
empty value the event is dropped; otherwise look the webhook up by
`(user_pubkey, event.pubkey)` and fire the POST. -/
def forwardToNotifyStep (sigOk : Bool) (tags : List (List String))
    (eventPubkey : String) (store : List NwcWebhook) : ForwardOutcome :=
  if ¬ sigOk then ForwardOutcome.dropBadSig
  else
    match tagsGetFirst tags ["p"] with
    | none => ForwardOutcome.nilTagFault
    | some t =>
      let userPubkey := tagValue t
      if userPubkey = "" then ForwardOutcome.dropNoUser
      else
        match nwcGet store userPubkey eventPubkey with
        | none => ForwardOutcome.dropNoWebhook
        | some w => ForwardOutcome.forwarded w.url

/-! ## bech32 (`lnurl/bech32.go` over the btcutil bech32 library)

The repository's `encodeLnurl` regroups the URL bytes 8→5 with padding and
bech32-encodes them under HRP `lnurl`.  The underlying primitives live in
the external `btcsuite/btcd/btcutil/bech32` package and are modelled here
from its source: `ConvertBits` (as the standard accumulator formulation of
the same regrouping, with the inner while-loop unrolled under the invariant
that fewer than `toBits` bits are pending), the BCH checksum, and the
no-length-limit decoder that LNURL consumers use. -/
/-- One input byte of `ConvertBits(data, 8, 5, pad)`: absorb 8 bits, emit
one or two 5-bit groups (under the loop invariant `bits < 5`). -/
def to5Step (acc bits v : Nat) : List Nat × Nat × Nat :=
  if bits + 8 ≥ 10 then
    ([(((acc <<< 8) ||| v) >>> (bits + 8 - 5)) &&& 31,
      (((acc <<< 8) ||| v) >>> (bits + 8 - 10)) &&& 31],
     (acc <<< 8) ||| v, bits + 8 - 10)
  else
    ([(((acc <<< 8) ||| v) >>> (bits + 8 - 5)) &&& 31],
     (acc <<< 8) ||| v, bits + 8 - 5)

/-- `ConvertBits(data, 8, 5, true)`: the main loop, then the final padded
group when bits are pending. -/
def to5Loop : List Nat → Nat → Nat → List Nat
  | [], acc, bits => if bits = 0 then [] else [(acc <<< (5 - bits)) &&& 31]
  | v :: rest, acc, bits =>
    (to5Step acc bits v).1 ++ to5Loop rest (to5Step acc bits v).2.1 (to5Step acc bits v).2.2

/-- `bech32.ConvertBits(data, 8, 5, true)` — 8-bit bytes to padded 5-bit
groups (modelled from the btcutil bech32 library). -/
def convert8to5 (data : List Nat) : List Nat :=
  to5Loop data 0 0

/-- `ConvertBits(data, 5, 8, false)`: absorb 5 bits per input group, emit an
8-bit byte when available; at the end, fail unless the leftover is a proper
zero padding of fewer than 5 bits. -/
def from5Loop : List Nat → Nat → Nat → Option (List Nat)
  | [], acc, bits =>
    if bits ≥ 5 ∨ ((acc <<< (8 - bits)) &&& 255) ≠ 0 then none else some []
  | v :: rest, acc, bits =>
    if bits + 5 ≥ 8 then
      match from5Loop rest ((acc <<< 5) ||| v) (bits + 5 - 8) with
      | none => none
      | some bs => some (((((acc <<< 5) ||| v) >>> (bits + 5 - 8)) &&& 255) :: bs)
    else from5Loop rest ((acc <<< 5) ||| v) (bits + 5)

/-- `bech32.ConvertBits(data, 5, 8, false)` — 5-bit groups back to bytes,
rejecting a nonzero or over-long padding (modelled from the btcutil bech32
library). -/
def convert5to8 (data : List Nat) : Option (List Nat) :=
  from5Loop data 0 0

/-- The five BCH generator constants of the bech32 checksum (btcutil
library). -/
def bech32Gen : List Nat := [0x3b6a57b2, 0x26508e6d, 0x1ea119fa, 0x3d4233dd, 0x2a1462b3]

/-- One step of `bech32Polymod` (btcutil library): spill the top five bits,
shift five zero bits in, mix the input group, and apply the generator
feedback selected by the spilled bits (the per-generator loop unrolled). -/
def bech32PolymodStep (chk v : Nat) : Nat :=
  let b := chk >>> 25
  let c0 := ((chk &&& 0x1ffffff) <<< 5) ^^^ v
  let c1 := if (b >>> 0) &&& 1 = 1 then c0 ^^^ 0x3b6a57b2 else c0
  let c2 := if (b >>> 1) &&& 1 = 1 then c1 ^^^ 0x26508e6d else c1
  let c3 := if (b >>> 2) &&& 1 = 1 then c2 ^^^ 0x1ea119fa else c2
  let c4 := if (b >>> 3) &&& 1 = 1 then c3 ^^^ 0x3d4233dd else c3
  if (b >>> 4) &&& 1 = 1 then c4 ^^^ 0x2a1462b3 else c4

/-- `bech32Polymod` (btcutil library). -/
def bech32Polymod (values : List Nat) : Nat :=
  values.foldl bech32PolymodStep 1

/-- The xor-aggregate of checksum groups, each shifted to its final bit
position. -/
def xorAgg : List Nat → Nat
  | [] => 0
  | c :: cs => (c <<< (5 * cs.length)) ^^^ xorAgg cs

/-- The bech32 data character set `qpzry9x8gf2tvdw0s3jn54khce6mua7l` as byte
values (`charset` in the btcutil bech32 library). -/
def bech32Charset : List Nat :=
  [113, 112, 122, 114, 121, 57, 120, 56, 103, 102, 50, 116, 118, 100, 119, 48,
   115, 51, 106, 110, 53, 52, 107, 104, 99, 101, 54, 109, 117, 97, 55, 108]

/-- `charset[b]` for an in-range 5-bit group (`encodeGeneric` indexes the
charset after checking `int(b) < len(charset)`). -/
def charsetAt (d : Nat) : Nat := bech32Charset.getD d 0

/-- `toBytes` (btcutil bech32 library): map each data character to its index
in the charset, failing on a character outside it
(`strings.IndexByte` returning -1). -/
def toBytes : List Nat → Option (List Nat)
  | [] => some []
  | b :: rest =>
    match bech32Charset.findIdx? (fun x => x == b), toBytes rest with
    | some i, some is => some (i :: is)
    | _, _ => none

/-- `strings.ToLower` on an ASCII byte. -/
def goToLowerByte (b : Nat) : Nat := if 65 ≤ b ∧ b ≤ 90 then b + 32 else b

/-- The HRP rounds of `bech32Polymod` (btcutil bech32 library): the high bits
of each HRP byte, the zero separator, then the low five bits of each HRP
byte. -/
def bech32HrpExpand (hrp : List Nat) : List Nat :=
  hrp.map (fun b => b >>> 5) ++ [0] ++ hrp.map (fun b => b &&& 31)

/-- The six 5-bit checksum groups of a polymod value
(`writeBech32Checksum` emits `(polymod >> uint(5*(5-i))) & 31` for
i = 0..5). -/
def checksumDigits (pm : Nat) : List Nat :=
  [(pm >>> 25) &&& 31, (pm >>> 20) &&& 31, (pm >>> 15) &&& 31,
   (pm >>> 10) &&& 31, (pm >>> 5) &&& 31, pm &&& 31]

/-- `writeBech32Checksum` for bech32 version 0 (checksum constant 1): the six
checksum groups of `bech32Polymod(hrp, data, nil) ^ 1`, where the nil
checksum stands for six zero groups. -/
def bech32ChecksumDigits (hrp data : List Nat) : List Nat :=
  checksumDigits
    (bech32Polymod (bech32HrpExpand hrp ++ data ++ List.replicate 6 0) ^^^ 1)

/-- The data part of `encodeGeneric`: each 5-bit group as its charset
character, failing when a group is not a 5-bit value
(`int(b) >= len(charset)`). -/
def charsetChars : List Nat → Option (List Nat)
  | [] => some []
  | d :: rest =>
    if d < 32 then
      match charsetChars rest with
      | some cs => some (charsetAt d :: cs)
      | none => none
    else none

/-- `bech32.Encode` (btcutil bech32 library, version 0): the lowercased HRP,
the separator `'1'`, the data in charset characters and the six checksum
characters. -/
def bech32Encode (hrp data : List Nat) : Option (List Nat) :=
  match charsetChars data with
  | none => none
  | some dataChars =>
      some (hrp.map goToLowerByte ++ [49] ++ dataChars ++
        (bech32ChecksumDigits (hrp.map goToLowerByte) data).map charsetAt)

/-- The accepted checksum constants of `bech32VerifyChecksum`: 1 for bech32
version 0 and 0x2bc830a3 for version m. -/
def bech32VerifyPm (pm : Nat) : Bool := pm == 1 || pm == 0x2bc830a3

/-- `bech32VerifyChecksum` (btcutil bech32 library): the polymod of the
expanded HRP, the data part and the trailing six checksum groups must hit a
known checksum constant. -/
def bech32VerifyChecksum (hrp values : List Nat) : Bool :=
  bech32VerifyPm
    (bech32Polymod (bech32HrpExpand hrp ++ values.take (values.length - 6)
      ++ values.drop (values.length - 6)))

/-- `strings.LastIndexByte(bech, '1')`, with the -1 case as `none`. -/
def lastIdx49 : List Nat → Option Nat
  | [] => none
  | b :: rest =>
    match lastIdx49 rest with
    | some i => some (i + 1)
    | none => if b = 49 then some 0 else none

/-- The tail of `decodeNoLimit` after case normalisation: locate the last
`'1'` (neither first nor within the final six characters), charset-decode the
data part, verify the checksum, and return the HRP with the data stripped of
its checksum. -/
def bech32DecodeLow (bech : List Nat) : Option (List Nat × List Nat) :=
  match lastIdx49 bech with
  | none => none
  | some one =>
    if one < 1 ∨ one + 7 > bech.length then none
    else
      match toBytes (bech.drop (one + 1)) with
      | none => none
      | some decoded =>
        if bech32VerifyChecksum (bech.take one) decoded then
          some (bech.take one, decoded.take (decoded.length - 6))
        else none

/-- `bech32.DecodeNoLimit` (btcutil bech32 library): at least 8 characters,
all ASCII 33–126, not mixed-case (lowercasing an all-uppercase string), then
the separator/charset/checksum processing of `bech32DecodeLow`. -/
def bech32DecodeNoLimit (bech : List Nat) : Option (List Nat × List Nat) :=
  if bech.length < 8 then none
  else if ∃ b ∈ bech, b < 33 ∨ 126 < b then none
  else if (∃ b ∈ bech, 97 ≤ b ∧ b ≤ 122) ∧ (∃ b ∈ bech, 65 ≤ b ∧ b ≤ 90) then
    none
  else
    bech32DecodeLow
      (if ∃ b ∈ bech, 65 ≤ b ∧ b ≤ 90 then bech.map goToLowerByte else bech)

/-- `encodeLnurl` (`lnurl/bech32.go`): regroup the URL bytes 8→5 with padding
and bech32-encode them under HRP `lnurl` (bytes 108, 110, 117, 114, 108). -/
def encodeLnurl (s : List Nat) : Option (List Nat) :=
  bech32Encode [108, 110, 117, 114, 108] (convert8to5 s)

/-- The code points of a string; for the ASCII strings handled here this is
`[]byte(s)` in Go. -/
def strBytes (s : String) : List Nat := s.data.map Char.toNat

/-- `lnurlUri := fmt.Sprintf("%v/lnurlp/%v", s.rootURL, pubkey)` from
`LnurlPayRouter.Register` and `Recover` (`lnurl/pay.go`). -/
def lnurlUri (rootURL pubkey : String) : String :=
  rootURL ++ "/lnurlp/" ++ pubkey

/-! ### Helper lemmas about the channel state -/
theorem find?_updateChan (l : List (Nat × ChannelState)) (id : Nat)
    (f : ChannelState → ChannelState) (j : Nat) :
    (updateChan l id f).find? (fun p => p.1 = j) =
      if j = id then (l.find? (fun p => p.1 = id)).map (fun q => (q.1, f q.2))
      else l.find? (fun p => p.1 = j) := by
  induction l with
  | nil => simp [updateChan]
  | cons p rest ih =>
    by_cases hpid : p.1 = id
    · by_cases hj : j = id
      · subst hj
        simp [updateChan, hpid, List.find?]
      · have h1 : ¬ p.1 = j := fun h => hj (by rw [← h, hpid])
        have h2 : ¬ id = j := fun h => hj h.symm
        simp [updateChan, hpid, List.find?, hj, h1, h2]
    · by_cases hpj : p.1 = j
      · have hj : ¬ j = id := fun h => hpid (h ▸ hpj)
        simp [updateChan, hpid, List.find?, hpj, hj]
      · simp [updateChan, hpid, List.find?, hpj, ih]

theorem chanOf_updateChan_ne (st : ChanSt) (id : Nat)
    (f : ChannelState → ChannelState) (j : Nat) (h : j ≠ id) :
    chanOf { st with chans := updateChan st.chans id f } j = chanOf st j := by
  simp [chanOf, find?_updateChan, h]

theorem chanOf_deleteRequestAndClose_ne (st : ChanSt) (id j : Nat) (h : j ≠ id) :
    chanOf (deleteRequestAndClose st id) j = chanOf st j := by
  simp [deleteRequestAndClose, chanOf, find?_updateChan, h]

theorem chanOf_senderCleanup_ne (st : ChanSt) (id j : Nat) (h : j ≠ id) :
    chanOf (senderCleanup st id) j = chanOf st j := by
  unfold senderCleanup
  by_cases hm : id ∈ st.pendingIds
  · simp [hm, chanOf_deleteRequestAndClose_ne st id j h]
  · simp [hm]

theorem chanOf_onResponse_ne (st : ChanSt) (id : Nat) (resp : CallbackResponse)
    (j : Nat) (h : j ≠ id) :
    chanOf (onResponse st id resp).2 j = chanOf st j := by
  unfold onResponse
  by_cases hm : id ∈ st.pendingIds
  · simp only [hm, if_pos]
    rw [chanOf_deleteRequestAndClose_ne _ _ _ h, chanOf_updateChan_ne _ _ _ _ h]
  · simp [hm]

theorem pendingIds_deleteRequestAndClose (st : ChanSt) (id : Nat) :
    (deleteRequestAndClose st id).pendingIds = st.pendingIds.filter (fun j => j ≠ id) :=
  rfl

theorem filter_ne_of_not_mem {l : List Nat} {id : Nat} (h : id ∉ l) :
    l.filter (fun j => decide (j ≠ id)) = l := by
  apply List.filter_eq_self.mpr
  intro a ha
  simp only [decide_eq_true_eq]
  exact fun h' => h (h' ▸ ha)

theorem updateChan_cons_self (id : Nat) (c : ChannelState)
    (rest : List (Nat × ChannelState)) (f : ChannelState → ChannelState) :
    updateChan ((id, c) :: rest) id f = (id, f c) :: rest := by
  simp [updateChan]

theorem senderCleanup_insertPending (st : ChanSt) (id : Nat)
    (hfresh : id ∉ st.pendingIds) :
    senderCleanup (insertPending st id) id =
      ⟨st.pendingIds, (id, ⟨[], 1⟩) :: st.chans⟩ := by
  unfold senderCleanup insertPending deleteRequestAndClose
  simp [updateChan_cons_self, List.filter_cons]
  exact fun a ha h => hfresh (h ▸ ha)

theorem onResponse_insertPending (st : ChanSt) (id : Nat) (resp : CallbackResponse)
    (hfresh : id ∉ st.pendingIds) :
    onResponse (insertPending st id) id resp =
      (Except.ok (), ⟨st.pendingIds, (id, ⟨[resp], 1⟩) :: st.chans⟩) := by
  unfold onResponse insertPending deleteRequestAndClose
  simp [updateChan_cons_self, List.filter_cons]
  exact fun a ha h => hfresh (h ▸ ha)

theorem chanOf_cons_self (id : Nat) (c : ChannelState) (rest : List (Nat × ChannelState))
    (p : List Nat) : chanOf ⟨p, (id, c) :: rest⟩ id = c := by
  simp [chanOf, List.find?]

theorem chanOf_cons_ne (id : Nat) (c : ChannelState) (rest : List (Nat × ChannelState))
    (p : List Nat) (j : Nat) (h : j ≠ id) :
    chanOf ⟨p, (id, c) :: rest⟩ j = chanOf ⟨p, rest⟩ j := by
  have h2 : ¬ id = j := fun hw => h hw.symm
  simp [chanOf, List.find?, h2]

theorem runPendingPhase_spec (st : ChanSt) (id : Nat) (resp : CallbackResponse)
    (timing : CallbackTiming) (hfresh : id ∉ st.pendingIds) :
    (runPendingPhase (insertPending st id) id resp timing).pendingIds = st.pendingIds ∧
    (chanOf (runPendingPhase (insertPending st id) id resp timing) id).closeCount = 1 ∧
    ((chanOf (runPendingPhase (insertPending st id) id resp timing) id).buffer = [] ∨
      (chanOf (runPendingPhase (insertPending st id) id resp timing) id).buffer = [resp]) ∧
    (∀ j, j ≠ id →
      chanOf (runPendingPhase (insertPending st id) id resp timing) j = chanOf st j) := by
  cases timing with
  | noCallback =>
    rw [runPendingPhase, senderCleanup_insertPending st id hfresh]
    refine ⟨rfl, ?_, ?_, ?_⟩
    · rw [chanOf_cons_self]
    · left; rw [chanOf_cons_self]
    · intro j hj
      rw [chanOf_cons_ne id _ _ _ j hj]
  | callbackBeforeExit =>
    rw [runPendingPhase, onResponse_insertPending st id resp hfresh]
    have hskip : senderCleanup ⟨st.pendingIds, (id, ⟨[resp], 1⟩) :: st.chans⟩ id =
        ⟨st.pendingIds, (id, ⟨[resp], 1⟩) :: st.chans⟩ := by
      unfold senderCleanup
      simp [hfresh]
    rw [hskip]
    refine ⟨rfl, ?_, ?_, ?_⟩
    · rw [chanOf_cons_self]
    · right; rw [chanOf_cons_self]
    · intro j hj
      rw [chanOf_cons_ne id _ _ _ j hj]
  | callbackAfterExit =>
    rw [runPendingPhase, senderCleanup_insertPending st id hfresh]
    have hmiss : onResponse ⟨st.pendingIds, (id, ⟨[], 1⟩) :: st.chans⟩ id resp =
        (Except.error "unknown request id", ⟨st.pendingIds, (id, ⟨[], 1⟩) :: st.chans⟩) := by
      unfold onResponse
      simp [hfresh]
    rw [hmiss]
    refine ⟨rfl, ?_, ?_, ?_⟩
    · rw [chanOf_cons_self]
    · left; rw [chanOf_cons_self]
    · intro j hj
      rw [chanOf_cons_ne id _ _ _ j hj]

/-- Claim C1, counterexample to the claim as stated.  A `SendRequest` call
that inserts its pending entry and then hits the non-200 exit path returns
the non-200 error, which is none of `{CallbackResponse, canceled error,
timeout error}`. -/
theorem sendRequest_result_counterexample :
    (sendRequestExec ⟨[], []⟩ 7 RequestPhase.non200 CallbackTiming.noCallback
        ExitReason.timedOut ⟨[], none⟩).1 =
      Except.error "webhook proxy returned non-200 status code" ∧
    (¬ ∃ r, (sendRequestExec ⟨[], []⟩ 7 RequestPhase.non200 CallbackTiming.noCallback
        ExitReason.timedOut ⟨[], none⟩).1 = Except.ok r) ∧
    (sendRequestExec ⟨[], []⟩ 7 RequestPhase.non200 CallbackTiming.noCallback
        ExitReason.timedOut ⟨[], none⟩).1 ≠ Except.error "canceled" ∧
    (sendRequestExec ⟨[], []⟩ 7 RequestPhase.non200 CallbackTiming.noCallback
        ExitReason.timedOut ⟨[], none⟩).1 ≠ Except.error "timeout" := by
  refine ⟨rfl, ?_, by simp [sendRequestExec], by simp [sendRequestExec]⟩
  rintro ⟨r, h⟩
  simp [sendRequestExec] at h

/-- Claim C1 (amended).  For every call that inserts a pending entry, on
every exit path (reply, cancel, timeout, request-construction/transport/
non-200 failure) and under every lock-race outcome against a concurrent
`OnResponse`, the entry is removed (the map returns to its pre-call value),
the fresh channel is closed exactly once, at most one message is delivered
into it, other channels are untouched; a call that reaches the waiting phase
returns exactly one of a `CallbackResponse`, the `canceled` error or the
`timeout` error, and every other exit path returns an error. -/
theorem sendRequest_cleanup (st : ChanSt) (id : Nat) (phase : RequestPhase)
    (timing : CallbackTiming) (pick : ExitReason) (resp : CallbackResponse)
    (hfresh : id ∉ st.pendingIds) (hphase : phase ≠ RequestPhase.marshalErr) :
    (sendRequestExec st id phase timing pick resp).2.pendingIds = st.pendingIds ∧
    (chanOf (sendRequestExec st id phase timing pick resp).2 id).closeCount = 1 ∧
    ((chanOf (sendRequestExec st id phase timing pick resp).2 id).buffer = [] ∨
      (chanOf (sendRequestExec st id phase timing pick resp).2 id).buffer = [resp]) ∧
    (∀ j, j ≠ id →
      chanOf (sendRequestExec st id phase timing pick resp).2 j = chanOf st j) ∧
    (phase = RequestPhase.ok200 →
      (sendRequestExec st id phase timing pick resp).1 = Except.ok resp ∨
      (sendRequestExec st id phase timing pick resp).1 = Except.error "canceled" ∨
      (sendRequestExec st id phase timing pick resp).1 = Except.error "timeout") ∧
    (phase ≠ RequestPhase.ok200 →
      ∃ e, (sendRequestExec st id phase timing pick resp).1 = Except.error e) := by
  have hrun := runPendingPhase_spec st id resp timing hfresh
  cases phase with
  | marshalErr => exact absurd rfl hphase
  | newRequestErr =>
    refine ⟨hrun.1, hrun.2.1, hrun.2.2.1, hrun.2.2.2, ?_, ?_⟩
    · intro h; cases h
    · intro _; exact ⟨_, rfl⟩
  | transportErr =>
    refine ⟨hrun.1, hrun.2.1, hrun.2.2.1, hrun.2.2.2, ?_, ?_⟩
    · intro h; cases h
    · intro _; exact ⟨_, rfl⟩
  | non200 =>
    refine ⟨hrun.1, hrun.2.1, hrun.2.2.1, hrun.2.2.2, ?_, ?_⟩
    · intro h; cases h
    · intro _; exact ⟨_, rfl⟩
  | ok200 =>
    refine ⟨hrun.1, hrun.2.1, hrun.2.2.1, hrun.2.2.2, fun _ => ?_,
      fun h => absurd rfl h⟩
    cases pick with
    | gotReply => exact Or.inl rfl
    | ctxCanceled => exact Or.inr (Or.inl rfl)
    | timedOut => exact Or.inr (Or.inr rfl)

/-- Witness for `sendRequest_cleanup` at a concrete input. -/
theorem sendRequest_cleanup_witness :
    (7 : Nat) ∉ (⟨[], []⟩ : ChanSt).pendingIds ∧
    (chanOf (sendRequestExec ⟨[], []⟩ 7 RequestPhase.ok200
        CallbackTiming.callbackBeforeExit ExitReason.gotReply
        ⟨[2], none⟩).2 7).closeCount = 1 :=
  ⟨by decide,
    (sendRequest_cleanup ⟨[], []⟩ 7 RequestPhase.ok200 CallbackTiming.callbackBeforeExit
      ExitReason.gotReply ⟨[2], none⟩ (by decide) (by decide)).2.1⟩

theorem handleResponse_eq (st : ChanSt) (responseID : String) (body : List Nat)
    (cc : String) (n : Nat) (hparse : goParseUint64 responseID = some n) :
    handleResponse st responseID body cc =
      match onResponse st n ⟨body, getCacheControlMaxAge cc⟩ with
      | (Except.error e, st') => (⟨500, e⟩, st')
      | (Except.ok _, st') => (⟨200, ""⟩, st') := by
  simp only [handleResponse, hparse]

/-- Claim C3.  A `POST /response/{responseID}` whose decimal id parses as a
`uint64` and is absent from the correlation map returns `500` with body
`unknown request id` and leaves the whole channel state (map and every
channel) unchanged; when the id is present, the body with the parsed
max-age is delivered on that entry's channel, the entry is removed, the
channel closed, other channels are untouched, and `200` is returned. -/
theorem chanOf_mk (p : List Nat) (l : List (Nat × ChannelState)) (j : Nat) :
    chanOf ⟨p, l⟩ j =
      match l.find? (fun q => q.1 = j) with
      | some q => q.2
      | none => ⟨[], 0⟩ := rfl

theorem handleResponse_spec (st : ChanSt) (responseID : String) (body : List Nat)
    (cc : String) (n : Nat) (hparse : goParseUint64 responseID = some n)
    (hwf : ∀ i ∈ st.pendingIds, (st.chans.find? (fun p => p.1 = i)).isSome) :
    (n ∉ st.pendingIds →
      handleResponse st responseID body cc = (⟨500, "unknown request id"⟩, st)) ∧
    (n ∈ st.pendingIds →
      (handleResponse st responseID body cc).1 = ⟨200, ""⟩ ∧
      (handleResponse st responseID body cc).2.pendingIds =
        st.pendingIds.filter (fun j => j ≠ n) ∧
      chanOf (handleResponse st responseID body cc).2 n =
        ⟨(chanOf st n).buffer ++ [⟨body, getCacheControlMaxAge cc⟩],
          (chanOf st n).closeCount + 1⟩ ∧
      (∀ j, j ≠ n → chanOf (handleResponse st responseID body cc).2 j = chanOf st j)) := by
  constructor
  · intro habs
    have hon : onResponse st n ⟨body, getCacheControlMaxAge cc⟩ =
        (Except.error "unknown request id", st) := by
      unfold onResponse
      simp [habs]
    rw [handleResponse_eq st responseID body cc n hparse, hon]
  · intro hmem
    have hon : onResponse st n ⟨body, getCacheControlMaxAge cc⟩ =
        (Except.ok (),
          (⟨st.pendingIds.filter (fun j => j ≠ n),
            updateChan
              (updateChan st.chans n
                (fun c => ⟨c.buffer ++ [⟨body, getCacheControlMaxAge cc⟩], c.closeCount⟩))
              n (fun c => ⟨c.buffer, c.closeCount + 1⟩)⟩ : ChanSt)) := by
      unfold onResponse deleteRequestAndClose
      simp [hmem]
    rw [handleResponse_eq st responseID body cc n hparse, hon]
    obtain ⟨q, hq⟩ := Option.isSome_iff_exists.mp (hwf n hmem)
    refine ⟨rfl, rfl, ?_, ?_⟩
    · rw [chanOf_mk, find?_updateChan, if_pos rfl, find?_updateChan, if_pos rfl, hq]
      have hst : chanOf st n = q.2 := by
        rcases st with ⟨p, l⟩
        rw [chanOf_mk, hq]
      simp [hst]
    · intro j hj
      rw [chanOf_mk, find?_updateChan, if_neg hj, find?_updateChan, if_neg hj]
      rcases st with ⟨p, l⟩
      rw [chanOf_mk]

/-- Witness for `handleResponse_spec` at a concrete input. -/
theorem handleResponse_spec_witness :
    goParseUint64 "5" = some 5 ∧
    ((5 : Nat) ∉ ([9] : List Nat) →
      handleResponse ⟨[9], [(9, ⟨[], 0⟩)]⟩ "5" [1] "" =
        (⟨500, "unknown request id"⟩, ⟨[9], [(9, ⟨[], 0⟩)]⟩)) :=
  ⟨by decide,
    (handleResponse_spec ⟨[9], [(9, ⟨[], 0⟩)]⟩ "5" [1] "" 5 (by decide)
      (by decide)).1⟩

theorem maxAgeLoop_eq_find (l : List String) :
    maxAgeLoop l =
      match l.find? (fun d => (goTrimSpace d).startsWith "max-age=") with
      | none => none
      | some d => goParseInt64 ((goTrimSpace d).drop 8) := by
  induction l with
  | nil => rfl
  | cons d rest ih =>
    by_cases h : (goTrimSpace d).startsWith "max-age="
    · simp [maxAgeLoop, List.find?, h]
    · simp [maxAgeLoop, List.find?, h, ih]

/-- Claim C10.  `getCacheControlMaxAge` is a total function of the
`Cache-Control` header: it returns the parsed signed 64-bit value of the
first comma-separated directive whose trimmed form starts with `max-age=`,
and `none` when the header is absent, when no directive has that prefix, or
when the value after `max-age=` does not parse; moreover the response
handler's status never depends on the header, so a malformed value cannot
make it reject the wallet's reply. -/
theorem getCacheControlMaxAge_spec (cc : String) :
    (getCacheControlMaxAge cc =
      if cc = "" then none
      else
        match (cc.splitOn ",").find? (fun d => (goTrimSpace d).startsWith "max-age=") with
        | none => none
        | some d => goParseInt64 ((goTrimSpace d).drop 8)) ∧
    (∀ st responseID body cc',
      (handleResponse st responseID body cc).1.status =
        (handleResponse st responseID body cc').1.status) := by
  constructor
  · by_cases h : cc = "" <;> simp [getCacheControlMaxAge, h, maxAgeLoop_eq_find]
  · intro st responseID body cc'
    unfold handleResponse
    cases goParseUint64 responseID with
    | none => rfl
    | some n =>
      unfold onResponse
      by_cases hmem : n ∈ st.pendingIds <;> simp [hmem]

/-- Claim C2, counterexample to the claim as stated.  An LNURL register
request whose `time` lies a billion seconds from the server clock passes
verification (the register `Verify` consults no clock) and the handler
answers `200`, not `401`. -/
theorem lnurlRegister_skew_counterexample :
    ((1000000000 : Int) - (0 : Int)).natAbs > 60 ∧
    lnurlRegisterStatus (fun _ _ => some "02aa") (fun _ => true)
      ⟨none, 0, "http://wallet", "sig"⟩ "02aa"
      (StoreSetResult.ok ⟨"02aa", "http://wallet", none, none⟩) = 200 ∧
    (200 : Nat) ≠ 401 := by
  refine ⟨by decide, by decide, by decide⟩

/-- Claim C2 (amended).  LNURL and BOLT12 unregister and recover requests
are rejected with `401` whenever the absolute clock skew exceeds 60 seconds
(the code enforces the stricter 30-second window); LNURL and BOLT12 register
requests carry a `time` field but perform no replay-window check at all. -/
theorem replayWindow_spec (recover : SigRecover) (now : Int)
    (reqL : UnregisterRecoverLnurlPayRequest)
    (reqB : UnregisterRecoverBolt12OfferRequest)
    (pubkey : String) (s : List Webhook)
    (hL : (now - reqL.time).natAbs > 60) (hB : (now - reqB.time).natAbs > 60) :
    (lnurlUnregister recover now reqL pubkey s).1 = 401 ∧
    lnurlRecoverStatus recover now reqL pubkey s = 401 ∧
    (bolt12Unregister recover now reqB pubkey s).1 = 401 ∧
    bolt12RecoverStatus recover now reqB pubkey s = 401 := by
  have hL30 : (now - reqL.time).natAbs > 30 := by omega
  have hB30 : (now - reqB.time).natAbs > 30 := by omega
  have hvL : unregisterRecoverLnurlVerify recover now reqL pubkey =
      Except.error "invalid time" := by
    unfold unregisterRecoverLnurlVerify
    simp [hL30]
  have hvB : unregisterRecoverBolt12Verify recover now reqB pubkey =
      Except.error "invalid time" := by
    unfold unregisterRecoverBolt12Verify
    simp [hB30]
  refine ⟨?_, ?_, ?_, ?_⟩ <;>
    simp [lnurlUnregister, lnurlRecoverStatus, bolt12Unregister,
      bolt12RecoverStatus, hvL, hvB]

/-- Witness for `replayWindow_spec` at a concrete input. -/
theorem replayWindow_spec_witness :
    ((100 : Int) - (0 : Int)).natAbs > 60 ∧
    (lnurlUnregister (fun _ _ => none) 100 ⟨0, "http://w", "sig"⟩ "02aa" []).1 = 401 :=
  ⟨by decide,
    (replayWindow_spec (fun _ _ => none) 100 ⟨0, "http://w", "sig"⟩
      ⟨0, "lno1", "sig"⟩ "02aa" [] (by decide) (by decide)).1⟩

/-- Claim C4, counterexample to the claim as stated.  Over the in-memory
store, after `Set` binds username `alice` to one pubkey, a
`SetPubkeyDetails` for a different pubkey with the same username succeeds,
leaving two distinct pubkeys holding `alice` at once. -/
theorem usernameUniqueness_counterexample :
    ∃ h1, h1 ∈ (msSetPubkeyDetails
        (msSet [] ⟨"02aa", "http://a", some "alice", none⟩) "02bb" "alice" none).1 ∧
    ∃ h2, h2 ∈ (msSetPubkeyDetails
        (msSet [] ⟨"02aa", "http://a", some "alice", none⟩) "02bb" "alice" none).1 ∧
      h1.username = some "alice" ∧ h2.username = some "alice" ∧
      h1.pubkey ≠ h2.pubkey := by
  refine ⟨⟨"02bb", "", some "alice", none⟩, by decide,
    ⟨"02aa", "http://a", some "alice", none⟩, by decide, rfl, rfl, by decide⟩

/-- Claim C4 (amended).  The registration endpoint surfaces a username
conflict reported by the store (`persist.ErrorUsernameConflict`, produced by
the unique index of the Postgres store) as HTTP `409`; the in-memory store
itself enforces no uniqueness. -/
theorem lnurlRegister_conflict409 (recover : SigRecover)
    (usernameValid : String → Bool) (req : RegisterLnurlPayRequest)
    (pubkey : String) (un : String)
    (hverify : registerLnurlVerify recover usernameValid req pubkey = Except.ok ()) :
    lnurlRegisterStatus recover usernameValid req pubkey
      (StoreSetResult.usernameConflict un) = 409 := by
  unfold lnurlRegisterStatus
  rw [hverify]

/-- Witness for `lnurlRegister_conflict409` at a concrete input. -/
theorem lnurlRegister_conflict409_witness :
    registerLnurlVerify (fun _ _ => some "02aa") (fun _ => true)
      ⟨none, 0, "http://w", "sig"⟩ "02aa" = Except.ok () ∧
    lnurlRegisterStatus (fun _ _ => some "02aa") (fun _ => true)
      ⟨none, 0, "http://w", "sig"⟩ "02aa"
      (StoreSetResult.usernameConflict "alice") = 409 :=
  ⟨rfl,
    lnurlRegister_conflict409 (fun _ _ => some "02aa") (fun _ => true)
      ⟨none, 0, "http://w", "sig"⟩ "02aa" "alice" rfl⟩

theorem bolt12Register_ok_eq (recover : SigRecover) (usernameValid : String → Bool)
    (dnsSet : DnsSetFn) (req : RegisterBolt12OfferRequest) (pubkey : String)
    (s : List Webhook)
    (hverify : registerBolt12Verify recover usernameValid req pubkey = Except.ok ()) :
    bolt12Register recover usernameValid dnsSet req pubkey s =
      if (match msGetPubkeyDetails s pubkey with
          | none => true
          | some lastD =>
            match lastD.offer with
            | none => true
            | some lastOffer =>
              req.username != lastD.username || req.offer != lastOffer)
      then (200, (msSetPubkeyDetails
              (msSetPubkeyDetails s pubkey req.username (some req.offer)).1
              pubkey req.username
              (if (dnsSet req.username req.offer).1 = 0 then none
               else some req.offer)).1)
      else (200, (msSetPubkeyDetails s pubkey req.username (some req.offer)).1) := by
  unfold bolt12Register
  rw [hverify]
  rfl

theorem msGetPubkeyDetails_offer_none {s : List Webhook} {i : String}
    (hclean : ∀ h ∈ s, h.offer = none) {d : PubkeyDetails}
    (hd : msGetPubkeyDetails s i = some d) : d.offer = none := by
  unfold msGetPubkeyDetails at hd
  cases hf : s.find? (fun h => whCompare h i && h.username.isSome) with
  | none => rw [hf] at hd; cases hd
  | some h =>
    rw [hf] at hd
    have hmem := List.mem_of_find?_eq_some hf
    have : d = ⟨h.pubkey, h.username.getD "", h.offer⟩ := by
      cases hd; rfl
    rw [this]
    exact hclean h hmem

/-- Claim C5.  When the store update succeeds (the in-memory store always
succeeds), BOLT12 registration answers `200` for every DNS behaviour,
including an erroring `dns.Set`; and under the `NoDns` implementation
(TTL always `0`), starting from any store without recorded offers, the
handler never leaves an offer in the projection. -/
theorem bolt12Register_dns_spec (recover : SigRecover)
    (usernameValid : String → Bool) (dnsSet : DnsSetFn)
    (req : RegisterBolt12OfferRequest) (pubkey : String) (s : List Webhook)
    (hverify : registerBolt12Verify recover usernameValid req pubkey = Except.ok ())
    (hclean : ∀ h ∈ s, h.offer = none) :
    (bolt12Register recover usernameValid dnsSet req pubkey s).1 = 200 ∧
    (∀ h ∈ (bolt12Register recover usernameValid noDnsSet req pubkey s).2,
      h.offer = none) := by
  constructor
  · rw [bolt12Register_ok_eq recover usernameValid dnsSet req pubkey s hverify]
    split <;> rfl
  · intro h hmem
    rw [bolt12Register_ok_eq recover usernameValid noDnsSet req pubkey s hverify] at hmem
    have hcond : (match msGetPubkeyDetails s pubkey with
        | none => true
        | some lastD =>
          match lastD.offer with
          | none => true
          | some lastOffer =>
            req.username != lastD.username || req.offer != lastOffer) = true := by
      cases hlast : msGetPubkeyDetails s pubkey with
      | none => rfl
      | some d =>
        have hdo : d.offer = none := msGetPubkeyDetails_offer_none hclean hlast
        simp [hdo]
    rw [hcond, if_pos rfl] at hmem
    simp only [noDnsSet, if_pos rfl] at hmem
    -- hmem : h is in the final store after the offer was reset to `none`.
    simp only [msSetPubkeyDetails, List.mem_cons] at hmem
    rcases hmem with hnew | hfil
    · rw [hnew]
      simp
    · have := List.mem_filter.mp hfil
      rcases this with ⟨hmem1, hpred⟩
      simp only [decide_not, Bool.not_eq_eq_eq_not, Bool.not_true, decide_eq_false_iff_not] at hpred
      rcases List.mem_cons.mp hmem1 with hnew1 | hfil1
      · exfalso
        apply hpred
        rw [hnew1]
      · exact hclean h (List.mem_of_mem_filter hfil1)

/-- Witness for `bolt12Register_dns_spec` at a concrete input. -/
theorem bolt12Register_dns_spec_witness :
    registerBolt12Verify (fun _ _ => some "02aa") (fun _ => true)
      ⟨0, "alice", "lno1abc", "sig"⟩ "02aa" = Except.ok () ∧
    (bolt12Register (fun _ _ => some "02aa") (fun _ => true)
      (fun _ _ => (0, some "dns failure")) ⟨0, "alice", "lno1abc", "sig"⟩
      "02aa" []).1 = 200 :=
  ⟨rfl,
    (bolt12Register_dns_spec (fun _ _ => some "02aa") (fun _ => true)
      (fun _ _ => (0, some "dns failure")) ⟨0, "alice", "lno1abc", "sig"⟩
      "02aa" [] rfl (by intro h hm; cases hm)).1⟩

theorem msGetCache_filtered (cs : List CacheEntry) (url : String) (now : Int) :
    msGetCache (cs.filter (fun c => ¬ c.url = url)) url now = none := by
  apply List.find?_eq_none.mpr
  intro c hc
  have hpred := (List.mem_filter.mp hc).2
  simp only [decide_not, Bool.not_eq_eq_eq_not, Bool.not_true,
    decide_eq_false_iff_not] at hpred
  simp [hpred]

theorem ttlGet_filtered (m : List TtlEntry) (k : String) :
    ttlGet (m.filter (fun e => ¬ e.key = k)) k = none := by
  apply List.find?_eq_none.mpr
  intro e he
  have hpred := (List.mem_filter.mp he).2
  simp only [decide_not, Bool.not_eq_eq_eq_not, Bool.not_true,
    decide_eq_false_iff_not] at hpred
  simp [hpred]

theorem msGetCache_setCache (s : List CacheEntry) (url : String)
    (body : List Nat) (exp now : Int) :
    msGetCache (msSetCache s url body exp) url now =
      if now < exp then some ⟨url, body, exp⟩ else none := by
  unfold msSetCache msGetCache
  rw [List.find?]
  by_cases h : now < exp
  · have : (decide (url = url) && decide (exp > now)) = true := by simp [h]
    rw [this, if_pos h]
  · have : (decide (url = url) && decide (exp > now)) = false := by
      simp [h]
    rw [this, if_neg h]
    exact msGetCache_filtered s url now

theorem cacheGet_set (m : List TtlEntry) (k : String) (v : List Nat)
    (now ttl now2 : Int) :
    cacheGet (cacheSet m k v now ttl) k now2 =
      if now + ttl < now2 then none else some v := by
  by_cases h : now + ttl < now2 <;>
    simp [cacheSet, ttlSet, cacheGet, ttlGet, ttlIsExpired, List.find?, h]

/-- Claim C6.  Cache laws, for the store cache and the TTL cache alike and
from every starting state (hence under every interleaving of operations):
a get after a set returns exactly the stored body while unexpired and a miss
once the expiry has passed; a second set for the same key overwrites; a
delete drops the entry so the next get misses. -/
theorem cache_laws (s : List CacheEntry) (m : List TtlEntry) (url k : String)
    (body b2 v v2 : List Nat) (exp e2 now now2 ttl t2 : Int) :
    (msGetCache (msSetCache s url body exp) url now =
      if now < exp then some ⟨url, body, exp⟩ else none) ∧
    (msGetCache (msSetCache (msSetCache s url body exp) url b2 e2) url now =
      if now < e2 then some ⟨url, b2, e2⟩ else none) ∧
    (msGetCache (msRemoveCache (msSetCache s url body exp) url) url now = none) ∧
    (cacheGet (cacheSet m k v now ttl) k now2 =
      if now + ttl < now2 then none else some v) ∧
    (cacheGet (cacheSet (cacheSet m k v now ttl) k v2 now t2) k now2 =
      if now + t2 < now2 then none else some v2) ∧
    (cacheGet (cacheDelete (cacheSet m k v now ttl) k) k now2 = none) := by
  refine ⟨msGetCache_setCache s url body exp now,
    msGetCache_setCache _ url b2 e2 now, ?_, cacheGet_set m k v now ttl now2,
    cacheGet_set _ k v2 now t2 now2, ?_⟩
  · exact msGetCache_filtered _ url now
  · unfold cacheGet cacheDelete
    rw [ttlGet_filtered]

/-- Claim C8, evaluation at the failing input.  After registering
`(U, A) ↦ old` and then re-registering `(U, A) ↦ new`, the in-memory store
still returns the old URL (the second `Set` is a no-op for an existing
pair), and the store holds the first row twice rather than exactly one
registration. -/
theorem nwcSet_upsert_failure :
    nwcGet (nwcSet (nwcSet [] ⟨"U", "A", "http://old", []⟩)
        ⟨"U", "A", "http://new", []⟩) "U" "A" =
      some ⟨"U", "A", "http://old", []⟩ ∧
    (nwcGet (nwcSet (nwcSet [] ⟨"U", "A", "http://old", []⟩)
        ⟨"U", "A", "http://new", []⟩) "U" "A").map (fun w => w.url) ≠
      some "http://new" ∧
    nwcSet (nwcSet [] ⟨"U", "A", "http://old", []⟩) ⟨"U", "A", "http://new", []⟩ =
      [⟨"U", "A", "http://old", []⟩, ⟨"U", "A", "http://old", []⟩] := by
  refine ⟨by decide, by decide, by decide⟩

/-- Claim C9, evaluation at the failing input.  A signature-valid event
with no tags at all makes the forwarder dereference the `nil` tag pointer
(a runtime panic) instead of dropping the event; the clean drop branch is
reached only when a `p` tag exists but carries no value. -/
theorem forwardToNotify_nilTag :
    forwardToNotifyStep true [] "A" [] = ForwardOutcome.nilTagFault ∧
    forwardToNotifyStep true [["e", "x"]] "A" [] = ForwardOutcome.nilTagFault ∧
    ForwardOutcome.nilTagFault ≠ ForwardOutcome.dropNoUser ∧
    forwardToNotifyStep true [["p"]] "A" [] = ForwardOutcome.dropNoUser := by
  refine ⟨by decide, by decide, by decide, by decide⟩

theorem and31_eq_mod (x : Nat) : x &&& 31 = x % 32 := by
  have h := Nat.and_pow_two_sub_one_eq_mod x 5
  norm_num at h
  exact h

theorem and255_eq_mod (x : Nat) : x &&& 255 = x % 256 := by
  have h := Nat.and_pow_two_sub_one_eq_mod x 8
  norm_num at h
  exact h

theorem orShiftEq (a k v : Nat) (hv : v < 2 ^ k) : (a <<< k) ||| v = a * 2 ^ k + v := by
  rw [Nat.shiftLeft_eq, Nat.mul_comm a (2 ^ k), ← Nat.mul_add_lt_is_or hv a,
    Nat.mul_comm (2 ^ k) a]

theorem mul32_or_mod (a v : Nat) : (a * 32) ||| (v % 32) = a * 32 + v % 32 := by
  have h := orShiftEq a 5 (v % 32) (by omega)
  rw [Nat.shiftLeft_eq] at h
  norm_num at h ⊢
  exact h

theorem and31p (x : Nat) : x &&& 31 = x % 2 ^ 5 :=
  Nat.and_pow_two_sub_one_eq_mod x 5

theorem and255p (x : Nat) : x &&& 255 = x % 2 ^ 8 :=
  Nat.and_pow_two_sub_one_eq_mod x 8

theorem pow5_or_mod (a v : Nat) : (a * 2 ^ 5) ||| (v % 2 ^ 5) = a * 2 ^ 5 + v % 2 ^ 5 := by
  have h := orShiftEq a 5 (v % 2 ^ 5) (Nat.mod_lt _ (by norm_num))
  rw [Nat.shiftLeft_eq] at h
  exact h

theorem roundtripLen1 (accT accF b0 : Nat) (h0 : b0 < 256) :
    from5Loop (to5Loop [b0] accT 0) accF 0 = some [b0] := by
  simp only [to5Loop, to5Step, from5Loop]
  norm_num
  rw [orShiftEq accT 8 b0 (by omega)]
  simp only [and31p, and255p, Nat.shiftLeft_eq, Nat.shiftRight_eq_div_pow, pow5_or_mod]
  generalize hA1 : accT * 2 ^ 8 + b0 = A1
  generalize hg0 : A1 / 2 ^ 3 % 2 ^ 5 = g0
  generalize hg1 : A1 * 2 ^ 2 % 2 ^ 5 = g1
  generalize hB1 : accF * 2 ^ 5 + g0 = B1
  generalize hB2 : B1 * 2 ^ 5 + g1 = B2
  norm_num at hA1 hg0 hg1 hB1 hB2 ⊢
  have hz : B2 * 64 % 256 = 0 := by omega
  rw [hz]
  norm_num
  omega

theorem roundtripLen2 (accT accF b0 b1 : Nat) (h0 : b0 < 256) (h1 : b1 < 256) :
    from5Loop (to5Loop [b0, b1] accT 0) accF 0 = some [b0, b1] := by
  simp only [to5Loop, to5Step, from5Loop]
  norm_num
  rw [orShiftEq accT 8 b0 (by omega), orShiftEq _ 8 b1 (by omega)]
  simp only [and31p, and255p, Nat.shiftLeft_eq, Nat.shiftRight_eq_div_pow, pow5_or_mod]
  generalize hA1 : accT * 2 ^ 8 + b0 = A1
  generalize hA2 : A1 * 2 ^ 8 + b1 = A2
  generalize hg0 : A1 / 2 ^ 3 % 2 ^ 5 = g0
  generalize hg1 : A2 / 2 ^ 6 % 2 ^ 5 = g1
  generalize hg2 : A2 / 2 ^ 1 % 2 ^ 5 = g2
  generalize hg3 : A2 * 2 ^ 4 % 2 ^ 5 = g3
  generalize hB1 : accF * 2 ^ 5 + g0 = B1
  generalize hB2 : B1 * 2 ^ 5 + g1 = B2
  generalize hB3 : B2 * 2 ^ 5 + g2 = B3
  generalize hB4 : B3 * 2 ^ 5 + g3 = B4
  norm_num at hA1 hA2 hg0 hg1 hg2 hg3 hB1 hB2 hB3 hB4 ⊢
  have hz : B4 * 16 % 256 = 0 := by omega
  rw [hz]
  norm_num
  omega

theorem roundtripLen3 (accT accF b0 b1 b2 : Nat) (h0 : b0 < 256) (h1 : b1 < 256) (h2 : b2 < 256) :
    from5Loop (to5Loop [b0, b1, b2] accT 0) accF 0 = some [b0, b1, b2] := by
  simp only [to5Loop, to5Step, from5Loop]
  norm_num
  rw [orShiftEq accT 8 b0 (by omega), orShiftEq _ 8 b1 (by omega),
    orShiftEq _ 8 b2 (by omega)]
  simp only [and31p, and255p, Nat.shiftLeft_eq, Nat.shiftRight_eq_div_pow, pow5_or_mod]
  generalize hA1 : accT * 2 ^ 8 + b0 = A1
  generalize hA2 : A1 * 2 ^ 8 + b1 = A2
  generalize hA3 : A2 * 2 ^ 8 + b2 = A3
  generalize hg0 : A1 / 2 ^ 3 % 2 ^ 5 = g0
  generalize hg1 : A2 / 2 ^ 6 % 2 ^ 5 = g1
  generalize hg2 : A2 / 2 ^ 1 % 2 ^ 5 = g2
  generalize hg3 : A3 / 2 ^ 4 % 2 ^ 5 = g3
  generalize hg4 : A3 * 2 ^ 1 % 2 ^ 5 = g4
  generalize hB1 : accF * 2 ^ 5 + g0 = B1
  generalize hB2 : B1 * 2 ^ 5 + g1 = B2
  generalize hB3 : B2 * 2 ^ 5 + g2 = B3
  generalize hB4 : B3 * 2 ^ 5 + g3 = B4
  generalize hB5 : B4 * 2 ^ 5 + g4 = B5
  norm_num at hA1 hA2 hA3 hg0 hg1 hg2 hg3 hg4 hB1 hB2 hB3 hB4 hB5 ⊢
  have hz : B5 * 128 % 256 = 0 := by omega
  rw [hz]
  norm_num
  omega

set_option maxHeartbeats 1600000 in
theorem roundtripLen4 (accT accF b0 b1 b2 b3 : Nat) (h0 : b0 < 256) (h1 : b1 < 256)
    (h2 : b2 < 256) (h3 : b3 < 256) :
    from5Loop (to5Loop [b0, b1, b2, b3] accT 0) accF 0 = some [b0, b1, b2, b3] := by
  simp only [to5Loop, to5Step, from5Loop]
  norm_num
  rw [orShiftEq accT 8 b0 (by omega), orShiftEq _ 8 b1 (by omega),
    orShiftEq _ 8 b2 (by omega), orShiftEq _ 8 b3 (by omega)]
  simp only [and31p, and255p, Nat.shiftLeft_eq, Nat.shiftRight_eq_div_pow, pow5_or_mod]
  generalize hA1 : accT * 2 ^ 8 + b0 = A1
  generalize hA2 : A1 * 2 ^ 8 + b1 = A2
  generalize hA3 : A2 * 2 ^ 8 + b2 = A3
  generalize hA4 : A3 * 2 ^ 8 + b3 = A4
  generalize hg0 : A1 / 2 ^ 3 % 2 ^ 5 = g0
  generalize hg1 : A2 / 2 ^ 6 % 2 ^ 5 = g1
  generalize hg2 : A2 / 2 ^ 1 % 2 ^ 5 = g2
  generalize hg3 : A3 / 2 ^ 4 % 2 ^ 5 = g3
  generalize hg4 : A4 / 2 ^ 7 % 2 ^ 5 = g4
  generalize hg5 : A4 / 2 ^ 2 % 2 ^ 5 = g5
  generalize hg6 : A4 * 2 ^ 3 % 2 ^ 5 = g6
  generalize hB1 : accF * 2 ^ 5 + g0 = B1
  generalize hB2 : B1 * 2 ^ 5 + g1 = B2
  generalize hB3 : B2 * 2 ^ 5 + g2 = B3
  generalize hB4 : B3 * 2 ^ 5 + g3 = B4
  generalize hB5 : B4 * 2 ^ 5 + g4 = B5
  generalize hB6 : B5 * 2 ^ 5 + g5 = B6
  generalize hB7 : B6 * 2 ^ 5 + g6 = B7
  norm_num at hA1 hA2 hA3 hA4 hg0 hg1 hg2 hg3 hg4 hg5 hg6 hB1 hB2 hB3 hB4 hB5 hB6 hB7 ⊢
  have hz : B7 * 32 % 256 = 0 := by omega
  rw [hz]
  norm_num
  omega

set_option maxHeartbeats 1600000 in
theorem roundtripBlock (accT accF b0 b1 b2 b3 b4 : Nat) (rest : List Nat)
    (h0 : b0 < 256) (h1 : b1 < 256) (h2 : b2 < 256) (h3 : b3 < 256) (h4 : b4 < 256)
    (ihrest : ∀ aT aF : Nat, from5Loop (to5Loop rest aT 0) aF 0 = some rest) :
    from5Loop (to5Loop (b0 :: b1 :: b2 :: b3 :: b4 :: rest) accT 0) accF 0 =
      some (b0 :: b1 :: b2 :: b3 :: b4 :: rest) := by
  simp only [to5Loop, to5Step, from5Loop]
  norm_num
  rw [orShiftEq accT 8 b0 (by omega), orShiftEq _ 8 b1 (by omega),
    orShiftEq _ 8 b2 (by omega), orShiftEq _ 8 b3 (by omega),
    orShiftEq _ 8 b4 (by omega)]
  simp only [and31p, and255p, Nat.shiftLeft_eq, Nat.shiftRight_eq_div_pow, pow5_or_mod]
  generalize hA1 : accT * 2 ^ 8 + b0 = A1
  generalize hA2 : A1 * 2 ^ 8 + b1 = A2
  generalize hA3 : A2 * 2 ^ 8 + b2 = A3
  generalize hA4 : A3 * 2 ^ 8 + b3 = A4
  generalize hA5 : A4 * 2 ^ 8 + b4 = A5
  generalize hg0 : A1 / 2 ^ 3 % 2 ^ 5 = g0
  generalize hg1 : A2 / 2 ^ 6 % 2 ^ 5 = g1
  generalize hg2 : A2 / 2 ^ 1 % 2 ^ 5 = g2
  generalize hg3 : A3 / 2 ^ 4 % 2 ^ 5 = g3
  generalize hg4 : A4 / 2 ^ 7 % 2 ^ 5 = g4
  generalize hg5 : A4 / 2 ^ 2 % 2 ^ 5 = g5
  generalize hg6 : A5 / 2 ^ 5 % 2 ^ 5 = g6
  generalize hg7 : A5 % 2 ^ 5 = g7
  generalize hB1 : accF * 2 ^ 5 + g0 = B1
  generalize hB2 : B1 * 2 ^ 5 + g1 = B2
  generalize hB3 : B2 * 2 ^ 5 + g2 = B3
  generalize hB4 : B3 * 2 ^ 5 + g3 = B4
  generalize hB5 : B4 * 2 ^ 5 + g4 = B5
  generalize hB6 : B5 * 2 ^ 5 + g5 = B6
  generalize hB7 : B6 * 2 ^ 5 + g6 = B7
  generalize hB8 : B7 * 2 ^ 5 + g7 = B8
  rw [ihrest A5 B8]
  norm_num at hA1 hA2 hA3 hA4 hA5 hg0 hg1 hg2 hg3 hg4 hg5 hg6 hg7 hB1 hB2 hB3 hB4 hB5 hB6 hB7 hB8 ⊢
  omega

theorem roundtripLen0 (accT accF : Nat) :
    from5Loop (to5Loop [] accT 0) accF 0 = some [] := by
  simp only [to5Loop, from5Loop]
  norm_num
  simp [Nat.shiftLeft_eq, and255p, Nat.mul_mod_left]

theorem from5_to5_roundtrip : ∀ (n : Nat) (bs : List Nat), bs.length ≤ n →
    (∀ b ∈ bs, b < 256) → ∀ accT accF,
    from5Loop (to5Loop bs accT 0) accF 0 = some bs := by
  intro n
  induction n with
  | zero =>
    intro bs hlen _ accT accF
    have hnil : bs = [] := List.length_eq_zero.mp (Nat.le_zero.mp hlen)
    subst hnil
    exact roundtripLen0 accT accF
  | succ n ih =>
    intro bs hlen hb accT accF
    rcases bs with _ | ⟨b0, _ | ⟨b1, _ | ⟨b2, _ | ⟨b3, _ | ⟨b4, rest⟩⟩⟩⟩⟩
    · exact roundtripLen0 accT accF
    · exact roundtripLen1 accT accF b0 (hb b0 (by simp))
    · exact roundtripLen2 accT accF b0 b1 (hb b0 (by simp)) (hb b1 (by simp))
    · exact roundtripLen3 accT accF b0 b1 b2 (hb b0 (by simp)) (hb b1 (by simp))
        (hb b2 (by simp))
    · exact roundtripLen4 accT accF b0 b1 b2 b3 (hb b0 (by simp)) (hb b1 (by simp))
        (hb b2 (by simp)) (hb b3 (by simp))
    · refine roundtripBlock accT accF b0 b1 b2 b3 b4 rest (hb b0 (by simp))
        (hb b1 (by simp)) (hb b2 (by simp)) (hb b3 (by simp)) (hb b4 (by simp))
        (fun aT aF => ih rest ?_ (fun b hbm => hb b (by simp [hbm])) aT aF)
      simp only [List.length_cons] at hlen
      omega

theorem convertBits_roundtrip (bs : List Nat) (hb : ∀ b ∈ bs, b < 256) :
    convert5to8 (convert8to5 bs) = some bs :=
  from5_to5_roundtrip bs.length bs le_rfl hb 0 0

theorem xor_right_comm (a b c : Nat) : a ^^^ b ^^^ c = a ^^^ c ^^^ b := by
  rw [Nat.xor_assoc, Nat.xor_comm b c, ← Nat.xor_assoc]

theorem xor_shiftRight_distrib (a b n : Nat) : (a ^^^ b) >>> n = (a >>> n) ^^^ (b >>> n) := by
  apply Nat.eq_of_testBit_eq
  intro i
  simp

theorem xor_shiftLeft_distrib (a b n : Nat) : (a ^^^ b) <<< n = (a <<< n) ^^^ (b <<< n) := by
  apply Nat.eq_of_testBit_eq
  intro i
  simp [Bool.and_xor_distrib_left]

theorem bech32PolymodStep_lt (chk v : Nat) (hv : v < 2 ^ 30) :
    bech32PolymodStep chk v < 2 ^ 30 := by
  unfold bech32PolymodStep
  have h1 : chk &&& 0x1ffffff < 2 ^ 25 :=
    Nat.and_lt_two_pow chk (by norm_num)
  have h2 : ((chk &&& 0x1ffffff) <<< 5) < 2 ^ 30 := by
    rw [Nat.shiftLeft_eq]
    calc (chk &&& 0x1ffffff) * 2 ^ 5 < 2 ^ 25 * 2 ^ 5 :=
          (Nat.mul_lt_mul_right (by norm_num)).mpr h1
      _ = 2 ^ 30 := by norm_num
  have h3 : ((chk &&& 0x1ffffff) <<< 5) ^^^ v < 2 ^ 30 := Nat.xor_lt_two_pow h2 hv
  have hIf : ∀ (P : Prop) (inst : Decidable P) (x G : Nat), x < 2 ^ 30 → G < 2 ^ 30 →
      (if P then x ^^^ G else x) < 2 ^ 30 := by
    intro P inst x G hx hG
    split
    · exact Nat.xor_lt_two_pow hx hG
    · exact hx
  exact hIf _ _ _ _ (hIf _ _ _ _ (hIf _ _ _ _ (hIf _ _ _ _ (hIf _ _ _ _ h3
    (by norm_num)) (by norm_num)) (by norm_num)) (by norm_num)) (by norm_num)

theorem if_xor_comm (P : Prop) (inst : Decidable P) (x D G : Nat) :
    (if P then (x ^^^ D) ^^^ G else x ^^^ D) = (if P then x ^^^ G else x) ^^^ D := by
  split
  · rw [xor_right_comm]
  · rfl

theorem bech32PolymodStep_xor (chk d v : Nat) (hd : d < 2 ^ 25) :
    bech32PolymodStep (chk ^^^ d) v = bech32PolymodStep chk v ^^^ (d <<< 5) := by
  unfold bech32PolymodStep
  dsimp only
  have hb : (chk ^^^ d) >>> 25 = chk >>> 25 := by
    rw [xor_shiftRight_distrib]
    have hz : d >>> 25 = 0 := by
      rw [Nat.shiftRight_eq_div_pow]
      exact Nat.div_eq_of_lt hd
    rw [hz, Nat.xor_zero]
  have hmask : (chk ^^^ d) &&& 0x1ffffff = (chk &&& 0x1ffffff) ^^^ d := by
    rw [Nat.and_xor_distrib_right]
    congr 1
    have hx := Nat.and_pow_two_sub_one_of_lt_two_pow hd
    norm_num at hx
    exact hx
  rw [hb, hmask, xor_shiftLeft_distrib,
    xor_right_comm ((chk &&& 0x1ffffff) <<< 5) (d <<< 5) v]
  rw [if_xor_comm, if_xor_comm, if_xor_comm, if_xor_comm, if_xor_comm]

theorem bech32PolymodStep_val (chk v : Nat) :
    bech32PolymodStep chk v = bech32PolymodStep chk 0 ^^^ v := by
  unfold bech32PolymodStep
  dsimp only
  rw [Nat.xor_zero]
  rw [if_xor_comm, if_xor_comm, if_xor_comm, if_xor_comm, if_xor_comm]

theorem foldl_step_lt : ∀ (vs : List Nat) (s : Nat), (∀ v ∈ vs, v < 2 ^ 30) →
    vs ≠ [] → List.foldl bech32PolymodStep s vs < 2 ^ 30 := by
  intro vs
  induction vs with
  | nil =>
    intro s _ hne
    exact absurd rfl hne
  | cons v rest ih =>
    intro s hvs _
    cases rest with
    | nil => simpa using bech32PolymodStep_lt s v (hvs v (by simp))
    | cons w ws =>
      have h := ih (bech32PolymodStep s v)
        (fun u hu => hvs u (by simp only [List.mem_cons] at hu ⊢; tauto)) (by simp)
      simpa using h

theorem foldl_step_xor : ∀ (vs : List Nat) (s d : Nat),
    d * 2 ^ (5 * vs.length) < 2 ^ 30 →
    List.foldl bech32PolymodStep (s ^^^ d) vs =
      List.foldl bech32PolymodStep s vs ^^^ (d <<< (5 * vs.length)) := by
  intro vs
  induction vs with
  | nil =>
    intro s d _
    simp
  | cons v rest ih =>
    intro s d hd
    simp only [List.length_cons] at hd
    have hd25 : d < 2 ^ 25 := by
      have h1 : d * 2 ^ 5 ≤ d * 2 ^ (5 * (rest.length + 1)) :=
        Nat.mul_le_mul_left d (Nat.pow_le_pow_right (by norm_num) (by omega))
      have h2 := Nat.lt_of_le_of_lt h1 hd
      norm_num at h2 ⊢
      omega
    simp only [List.foldl_cons, List.length_cons]
    rw [bech32PolymodStep_xor s d v hd25,
      ih (bech32PolymodStep s v) (d <<< 5) (by
        rw [Nat.shiftLeft_eq]
        calc d * 2 ^ 5 * 2 ^ (5 * rest.length) = d * 2 ^ (5 * (rest.length + 1)) := by
              rw [Nat.mul_assoc, ← Nat.pow_add]
              congr 1
              congr 1
              omega
          _ < 2 ^ 30 := hd),
      ← Nat.shiftLeft_add]
    congr 2
    omega

theorem foldl_step_digits : ∀ (cs : List Nat) (s : Nat), (∀ c ∈ cs, c < 32) →
    cs.length ≤ 6 →
    List.foldl bech32PolymodStep s cs =
      List.foldl bech32PolymodStep s (List.replicate cs.length 0) ^^^ xorAgg cs := by
  intro cs
  induction cs with
  | nil =>
    intro s _ _
    simp [xorAgg]
  | cons c rest ih =>
    intro s hc hlen
    simp only [List.length_cons] at hlen
    simp only [List.foldl_cons, List.length_cons, List.replicate_succ]
    rw [bech32PolymodStep_val s c,
      foldl_step_xor rest (bech32PolymodStep s 0) c (by
        have hc32 : c < 2 ^ 5 := by
          have := hc c (by simp)
          norm_num
          omega
        calc c * 2 ^ (5 * rest.length) < 2 ^ 5 * 2 ^ (5 * rest.length) :=
              (Nat.mul_lt_mul_right (Nat.pos_pow_of_pos _ (by norm_num))).mpr hc32
          _ = 2 ^ (5 + 5 * rest.length) := by rw [← Nat.pow_add]
          _ ≤ 2 ^ 30 := Nat.pow_le_pow_right (by norm_num) (by omega)),
      ih (bech32PolymodStep s 0)
        (fun u hu => hc u (by simp only [List.mem_cons] at hu ⊢; tauto)) (by omega)]
    simp only [xorAgg]
    rw [Nat.xor_assoc, Nat.xor_comm (xorAgg rest) (c <<< (5 * rest.length)),
      ← Nat.xor_assoc]

theorem and31_lt (e : Nat) : e &&& 31 < 32 := by
  have := Nat.and_lt_two_pow e (show (31:Nat) < 2 ^ 5 by norm_num)
  omega

theorem to5Loop_lt : ∀ (bs : List Nat) (acc bits : Nat),
    ∀ x ∈ to5Loop bs acc bits, x < 32 := by
  intro bs
  induction bs with
  | nil =>
    intro acc bits x hx
    simp only [to5Loop] at hx
    split at hx
    · simp at hx
    · simp only [List.mem_singleton] at hx
      subst hx
      exact and31_lt _
  | cons v rest ih =>
    intro acc bits x hx
    simp only [to5Loop, List.mem_append] at hx
    rcases hx with hx | hx
    · unfold to5Step at hx
      split at hx <;> simp only [List.mem_cons, List.not_mem_nil, or_false] at hx
      · rcases hx with hx | hx <;> (subst hx; exact and31_lt _)
      · subst hx
        exact and31_lt _
    · exact ih _ _ x hx

theorem convert8to5_lt (bs : List Nat) : ∀ x ∈ convert8to5 bs, x < 32 :=
  to5Loop_lt bs 0 0

theorem checksumDigits_lt (pm : Nat) : ∀ x ∈ checksumDigits pm, x < 32 := by
  intro x hx
  simp only [checksumDigits, List.mem_cons, List.not_mem_nil, or_false] at hx
  rcases hx with hx | hx | hx | hx | hx | hx <;> (subst hx; exact and31_lt _)

theorem bech32Charset_facts :
    ∀ c ∈ bech32Charset, 33 ≤ c ∧ c ≤ 126 ∧ (c < 65 ∨ 90 < c) ∧ c ≠ 49 := by
  decide

theorem charsetAt_mem : ∀ d, d < 32 → charsetAt d ∈ bech32Charset := by
  decide

theorem charset_findIdx :
    ∀ d < 32, bech32Charset.findIdx? (fun x => x == charsetAt d) = some d := by
  decide

theorem charsetChars_map : ∀ (ds : List Nat), (∀ d ∈ ds, d < 32) →
    charsetChars ds = some (ds.map charsetAt) := by
  intro ds
  induction ds with
  | nil => intro; rfl
  | cons d rest ih =>
    intro h
    have hd : d < 32 := h d (by simp)
    simp only [charsetChars, if_pos hd,
      ih (fun u hu => h u (by simp [hu])), List.map_cons]

theorem toBytes_map : ∀ (ds : List Nat), (∀ d ∈ ds, d < 32) →
    toBytes (ds.map charsetAt) = some ds := by
  intro ds
  induction ds with
  | nil => intro; rfl
  | cons d rest ih =>
    intro h
    have hd : d < 32 := h d (by simp)
    simp only [List.map_cons, toBytes, charset_findIdx d hd,
      ih (fun u hu => h u (by simp [hu]))]

theorem lastIdx49_none : ∀ (l : List Nat), 49 ∉ l → lastIdx49 l = none := by
  intro l
  induction l with
  | nil => intro; rfl
  | cons b rest ih =>
    intro h
    simp only [List.mem_cons, not_or] at h
    simp only [lastIdx49, ih h.2]
    have hb : ¬b = 49 := fun hb => h.1 hb.symm
    simp [hb]

theorem lastIdx49_sep : ∀ (l1 l2 : List Nat), 49 ∉ l2 →
    lastIdx49 (l1 ++ 49 :: l2) = some l1.length := by
  intro l1 l2 h
  induction l1 with
  | nil => simp [lastIdx49, lastIdx49_none l2 h]
  | cons b rest ih => simp [lastIdx49, ih]

theorem xorShiftEq (a k v : Nat) (hv : v < 2 ^ k) :
    (a <<< k) ^^^ v = a * 2 ^ k + v := by
  rw [← orShiftEq a k v hv]
  apply Nat.eq_of_testBit_eq
  intro i
  by_cases h : i < k
  · have ha : (a <<< k).testBit i = false := by
      simp [Nat.testBit_shiftLeft]
      omega
    simp [Nat.testBit_xor, Nat.testBit_or, ha]
  · have hb : v.testBit i = false :=
      Nat.testBit_lt_two_pow
        (lt_of_lt_of_le hv (Nat.pow_le_pow_right (by norm_num) (by omega)))
    simp [Nat.testBit_xor, Nat.testBit_or, hb]

theorem xorAgg_checksumDigits (c : Nat) (hc : c < 2 ^ 30) :
    xorAgg (checksumDigits c) = c := by
  have h1 : xorAgg (checksumDigits c) =
      ((c >>> 25 &&& 31) <<< 25) ^^^ (((c >>> 20 &&& 31) <<< 20) ^^^
        (((c >>> 15 &&& 31) <<< 15) ^^^ (((c >>> 10 &&& 31) <<< 10) ^^^
          (((c >>> 5 &&& 31) <<< 5) ^^^ (c &&& 31))))) := by
    simp [xorAgg, checksumDigits]
  rw [h1]
  simp only [and31_eq_mod, Nat.shiftRight_eq_div_pow]
  have e1 := xorShiftEq (c / 2 ^ 5 % 32) 5 (c % 32) (by omega)
  rw [e1]
  have e2 := xorShiftEq (c / 2 ^ 10 % 32) 10
    (c / 2 ^ 5 % 32 * 2 ^ 5 + c % 32) (by omega)
  rw [e2]
  have e3 := xorShiftEq (c / 2 ^ 15 % 32) 15
    (c / 2 ^ 10 % 32 * 2 ^ 10 + (c / 2 ^ 5 % 32 * 2 ^ 5 + c % 32)) (by omega)
  rw [e3]
  have e4 := xorShiftEq (c / 2 ^ 20 % 32) 20
    (c / 2 ^ 15 % 32 * 2 ^ 15 +
      (c / 2 ^ 10 % 32 * 2 ^ 10 + (c / 2 ^ 5 % 32 * 2 ^ 5 + c % 32))) (by omega)
  rw [e4]
  have e5 := xorShiftEq (c / 2 ^ 25 % 32) 25
    (c / 2 ^ 20 % 32 * 2 ^ 20 + (c / 2 ^ 15 % 32 * 2 ^ 15 +
      (c / 2 ^ 10 % 32 * 2 ^ 10 + (c / 2 ^ 5 % 32 * 2 ^ 5 + c % 32)))) (by omega)
  rw [e5]
  omega

theorem foldl_checksumDigits_eq_one (s : Nat) :
    List.foldl bech32PolymodStep s
      (checksumDigits
        (List.foldl bech32PolymodStep s (List.replicate 6 0) ^^^ 1)) = 1 := by
  have hm0 : List.foldl bech32PolymodStep s (List.replicate 6 0) < 2 ^ 30 :=
    foldl_step_lt _ s (by intro v hv; simp at hv; omega) (by simp)
  have hclt :
      List.foldl bech32PolymodStep s (List.replicate 6 0) ^^^ 1 < 2 ^ 30 :=
    Nat.xor_lt_two_pow hm0 (by norm_num)
  have hdig := checksumDigits_lt
    (List.foldl bech32PolymodStep s (List.replicate 6 0) ^^^ 1)
  have hlen : (checksumDigits
      (List.foldl bech32PolymodStep s (List.replicate 6 0) ^^^ 1)).length = 6 :=
    rfl
  rw [foldl_step_digits _ s hdig (le_of_eq hlen), hlen,
    xorAgg_checksumDigits _ hclt]
  exact Nat.xor_cancel_left _ _

theorem bech32_decode_encoded (d5 cs : List Nat)
    (hd5 : ∀ x ∈ d5, x < 32)
    (hcs : cs = bech32ChecksumDigits [108, 110, 117, 114, 108] d5) :
    bech32DecodeNoLimit ([108, 110, 117, 114, 108] ++
        49 :: (d5.map charsetAt ++ cs.map charsetAt)) =
      some ([108, 110, 117, 114, 108], d5) := by
  have hcs32 : ∀ x ∈ cs, x < 32 := by
    rw [hcs]
    unfold bech32ChecksumDigits
    exact checksumDigits_lt _
  have hcs6 : cs.length = 6 := by rw [hcs]; rfl
  have hcsmem : ∀ b ∈ d5.map charsetAt ++ cs.map charsetAt,
      b ∈ bech32Charset := by
    intro b hb
    rcases List.mem_append.mp hb with hb | hb
    · obtain ⟨d, hd, rfl⟩ := List.mem_map.mp hb
      exact charsetAt_mem d (hd5 d hd)
    · obtain ⟨d, hd, rfl⟩ := List.mem_map.mp hb
      exact charsetAt_mem d (hcs32 d hd)
  have hmem : ∀ b ∈ ([108, 110, 117, 114, 108] ++
      49 :: (d5.map charsetAt ++ cs.map charsetAt) : List Nat),
      33 ≤ b ∧ b ≤ 126 ∧ ¬(65 ≤ b ∧ b ≤ 90) := by
    intro b hb
    simp only [List.mem_append, List.mem_cons, List.not_mem_nil,
      or_false] at hb
    rcases hb with (rfl | rfl | rfl | rfl | rfl) | rfl | hb | hb
    · decide
    · decide
    · decide
    · decide
    · decide
    · decide
    · obtain ⟨h1, h2, h3, h4⟩ :=
        bech32Charset_facts b (hcsmem b (List.mem_append_left _ hb))
      exact ⟨h1, h2, fun hcon => by omega⟩
    · obtain ⟨h1, h2, h3, h4⟩ :=
        bech32Charset_facts b (hcsmem b (List.mem_append_right _ hb))
      exact ⟨h1, h2, fun hcon => by omega⟩
  have hlenfull : ([108, 110, 117, 114, 108] ++
      49 :: (d5.map charsetAt ++ cs.map charsetAt) : List Nat).length =
      12 + d5.length := by
    simp [hcs6]
    omega
  have hlen8 : ¬(([108, 110, 117, 114, 108] ++
      49 :: (d5.map charsetAt ++ cs.map charsetAt) : List Nat).length < 8) := by
    rw [hlenfull]
    omega
  have hA : ¬∃ b ∈ ([108, 110, 117, 114, 108] ++
      49 :: (d5.map charsetAt ++ cs.map charsetAt) : List Nat),
      b < 33 ∨ 126 < b := by
    rintro ⟨b, hbm, hbc⟩
    have := hmem b hbm
    omega
  have hup : ¬∃ b ∈ ([108, 110, 117, 114, 108] ++
      49 :: (d5.map charsetAt ++ cs.map charsetAt) : List Nat),
      65 ≤ b ∧ b ≤ 90 := by
    rintro ⟨b, hbm, hbc⟩
    have := hmem b hbm
    omega
  have hmix : ¬((∃ b ∈ ([108, 110, 117, 114, 108] ++
      49 :: (d5.map charsetAt ++ cs.map charsetAt) : List Nat),
      97 ≤ b ∧ b ≤ 122) ∧ (∃ b ∈ ([108, 110, 117, 114, 108] ++
      49 :: (d5.map charsetAt ++ cs.map charsetAt) : List Nat),
      65 ≤ b ∧ b ≤ 90)) := fun hc => hup hc.2
  have h49 : (49 : Nat) ∉ d5.map charsetAt ++ cs.map charsetAt := by
    intro h
    obtain ⟨_, _, _, h4⟩ := bech32Charset_facts 49 (hcsmem 49 h)
    exact h4 rfl
  have hlast : lastIdx49 ([108, 110, 117, 114, 108] ++
      49 :: (d5.map charsetAt ++ cs.map charsetAt)) = some 5 :=
    lastIdx49_sep _ _ h49
  unfold bech32DecodeNoLimit
  rw [if_neg hlen8, if_neg hA, if_neg hmix, if_neg hup]
  unfold bech32DecodeLow
  simp only [hlast]
  have hone : ¬((5 : Nat) < 1 ∨ 5 + 7 > ([108, 110, 117, 114, 108] ++
      49 :: (d5.map charsetAt ++ cs.map charsetAt) : List Nat).length) := by
    rw [hlenfull]
    omega
  rw [if_neg hone]
  have hdrop6 : ([108, 110, 117, 114, 108] ++
      49 :: (d5.map charsetAt ++ cs.map charsetAt) : List Nat).drop (5 + 1) =
      d5.map charsetAt ++ cs.map charsetAt := rfl
  have htb : toBytes (([108, 110, 117, 114, 108] ++
      49 :: (d5.map charsetAt ++ cs.map charsetAt) : List Nat).drop (5 + 1)) =
      some (d5 ++ cs) := by
    rw [hdrop6, ← List.map_append]
    refine toBytes_map (d5 ++ cs) ?_
    intro u hu
    rcases List.mem_append.mp hu with h | h
    exacts [hd5 u h, hcs32 u h]
  simp only [htb]
  have htake5 : ([108, 110, 117, 114, 108] ++
      49 :: (d5.map charsetAt ++ cs.map charsetAt) : List Nat).take 5 =
      [108, 110, 117, 114, 108] := rfl
  have hlendec : (d5 ++ cs).length - 6 = d5.length := by
    simp [hcs6]
  have htakedec : (d5 ++ cs).take ((d5 ++ cs).length - 6) = d5 := by
    rw [hlendec]
    exact List.take_left' rfl
  have hdropdec : (d5 ++ cs).drop ((d5 ++ cs).length - 6) = cs := by
    rw [hlendec]
    exact List.drop_left' rfl
  have hcseq : cs = checksumDigits
      (List.foldl bech32PolymodStep
        (List.foldl bech32PolymodStep
          (List.foldl bech32PolymodStep 1
            (bech32HrpExpand [108, 110, 117, 114, 108])) d5)
        (List.replicate 6 0) ^^^ 1) := by
    rw [hcs]
    unfold bech32ChecksumDigits bech32Polymod
    simp only [List.foldl_append]
  have hpm : bech32Polymod (bech32HrpExpand [108, 110, 117, 114, 108] ++
      d5 ++ cs) = 1 := by
    unfold bech32Polymod
    simp only [List.foldl_append]
    rw [hcseq]
    exact foldl_checksumDigits_eq_one _
  have hver : bech32VerifyChecksum [108, 110, 117, 114, 108] (d5 ++ cs) =
      true := by
    unfold bech32VerifyChecksum
    rw [htakedec, hdropdec, hpm]
    rfl
  rw [htake5, hver, if_pos rfl, htakedec]

theorem encodeLnurl_decode (bs : List Nat) (hb : ∀ b ∈ bs, b < 256) :
    ∃ bech, encodeLnurl bs = some bech ∧
      bech32DecodeNoLimit bech =
        some ([108, 110, 117, 114, 108], convert8to5 bs) ∧
      convert5to8 (convert8to5 bs) = some bs := by
  have henc : encodeLnurl bs = some ([108, 110, 117, 114, 108] ++
      49 :: ((convert8to5 bs).map charsetAt ++
        (bech32ChecksumDigits [108, 110, 117, 114, 108]
          (convert8to5 bs)).map charsetAt)) := by
    unfold encodeLnurl bech32Encode
    rw [charsetChars_map _ (convert8to5_lt bs)]
    rfl
  refine ⟨_, henc, ?_, convertBits_roundtrip bs hb⟩
  exact bech32_decode_encoded (convert8to5 bs) _ (convert8to5_lt bs) rfl

/-- Claim C7.  For every root URL and pubkey whose joined LNURL-pay URI
`"{rootURL}/lnurlp/{pubkey}"` is a byte string (ASCII, as produced by the
router), the `lnurl` value built by the register and recover handlers —
`encodeLnurl` of that URI — encodes successfully, and bech32-decoding it
yields the human-readable part `lnurl` (bytes of the string `lnurl`) and the
original 5-bit data groups, which regroup 5→8 back to exactly the encoded
URI bytes. -/
theorem lnurl_bech32_roundtrip (rootURL pubkey : String)
    (h : ∀ b ∈ strBytes (lnurlUri rootURL pubkey), b < 256) :
    ∃ bech, encodeLnurl (strBytes (lnurlUri rootURL pubkey)) = some bech ∧
      bech32DecodeNoLimit bech =
        some (strBytes "lnurl",
          convert8to5 (strBytes (lnurlUri rootURL pubkey))) ∧
      convert5to8 (convert8to5 (strBytes (lnurlUri rootURL pubkey))) =
        some (strBytes (lnurlUri rootURL pubkey)) := by
  have h2 : strBytes "lnurl" = [108, 110, 117, 114, 108] := by decide
  rw [h2]
  exact encodeLnurl_decode (strBytes (lnurlUri rootURL pubkey)) h

/-- Claim C7, witness: the concrete root URL `https://breez.fun` and pubkey
`02aa`, whose LNURL-pay URI round-trips through `encodeLnurl` and
`bech32DecodeNoLimit`. -/
theorem lnurl_bech32_roundtrip_witness :
    (∀ b ∈ strBytes (lnurlUri "https://breez.fun" "02aa"), b < 256) ∧
    (∃ bech, encodeLnurl (strBytes (lnurlUri "https://breez.fun" "02aa")) =
        some bech ∧
      bech32DecodeNoLimit bech =
        some (strBytes "lnurl",
          convert8to5 (strBytes (lnurlUri "https://breez.fun" "02aa"))) ∧
      convert5to8
          (convert8to5 (strBytes (lnurlUri "https://breez.fun" "02aa"))) =
        some (strBytes (lnurlUri "https://breez.fun" "02aa"))) :=
  ⟨by decide, lnurl_bech32_roundtrip "https://breez.fun" "02aa" (by decide)⟩
